import Mathlib

/-!
Verification of the BillManager recurrence-date generation engine.

The definitions below are a shallow embedding of the JavaScript sources:
  - `src/utils/dateUtils.js`    (calendar arithmetic, rule evaluation, sequence generation)
  - `src/utils/paymentGenerator.js` (reconciliation against the payment store)
  - `src/database/payments.js`  (payment-store CRUD)
  - `src/database/logs.js`      (audit sink)

The program manipulates JavaScript `Date` values that always sit at local
midnight (they are produced by `parseISO` of `YYYY-MM-DD` strings or by
`startOfDay`), so only the calendar components year/month/day matter and
timestamp comparisons coincide with lexicographic comparison of those
components.  The date-fns helpers used by the source are modelled by their
actual semantics:
  - `addDays` = native day stepping (month/year rollover),
  - `addMonths` = month stepping with day clamped to the target month length,
  - `addYears n` = `addMonths (12 n)`,
  - `setDate d day` = native `Date.prototype.setDate`: day `day` counted from
    the first of `d`'s month, rolling over into following months when `day`
    exceeds the month length (date-fns `setDate` never throws),
  - `setDay` (with `weekStartsOn: 0`) = `addDays (day - getDay(date))`.
-/

namespace BillManager

/-- A calendar date (proleptic Gregorian).  Mirrors a JS `Date` at local
midnight: only year / month (1-12) / day (1-based) are relevant. -/
structure Date where
  year : Nat
  month : Nat
  day : Nat
deriving DecidableEq, Repr

/-- Gregorian leap-year test (as computed by JS `Date` month arithmetic). -/
def isLeapYear (y : Nat) : Bool :=
  (y % 4 == 0 && y % 100 != 0) || y % 400 == 0

/-- Number of days in a month, as produced by
`new Date(year, month, 0).getDate()` in the source. -/
def daysInMonth (y m : Nat) : Nat :=
  if m = 2 then (if isLeapYear y then 29 else 28)
  else if m = 4 ∨ m = 6 ∨ m = 9 ∨ m = 11 then 30
  else 31

/-- A structurally well-formed calendar date. -/
def ValidDate (d : Date) : Prop :=
  1 ≤ d.year ∧ 1 ≤ d.month ∧ d.month ≤ 12 ∧ 1 ≤ d.day ∧ d.day ≤ daysInMonth d.year d.month

instance (d : Date) : Decidable (ValidDate d) := by
  unfold ValidDate; exact inferInstance

/-- Chronological strict order on midnight dates; this is what date-fns
`isAfter` / `isBefore` compute (timestamp comparison). -/
def dateLt (a b : Date) : Prop :=
  a.year < b.year ∨ (a.year = b.year ∧ (a.month < b.month ∨ (a.month = b.month ∧ a.day < b.day)))

instance (a b : Date) : Decidable (dateLt a b) := by
  unfold dateLt; exact inferInstance

/-- Chronological reflexive order on midnight dates. -/
def dateLe (a b : Date) : Prop :=
  a.year < b.year ∨ (a.year = b.year ∧ (a.month < b.month ∨ (a.month = b.month ∧ a.day ≤ b.day)))

instance (a b : Date) : Decidable (dateLe a b) := by
  unfold dateLe; exact inferInstance

/-- Step one day forward (native `Date` day rollover). -/
def succDay (d : Date) : Date :=
  if d.day < daysInMonth d.year d.month then ⟨d.year, d.month, d.day + 1⟩
  else if d.month < 12 then ⟨d.year, d.month + 1, 1⟩
  else ⟨d.year + 1, 1, 1⟩

/-- Step one day backward (native `Date` day rollover). -/
def predDay (d : Date) : Date :=
  if 1 < d.day then ⟨d.year, d.month, d.day - 1⟩
  else if 1 < d.month then ⟨d.year, d.month - 1, daysInMonth d.year (d.month - 1)⟩
  else ⟨d.year - 1, 12, 31⟩

/-- date-fns `addDays` for a nonnegative number of days. -/
def addDays (d : Date) : Nat → Date
  | 0 => d
  | n + 1 => succDay (addDays d n)

/-- date-fns `subDays` for a nonnegative number of days. -/
def subDays (d : Date) : Nat → Date
  | 0 => d
  | n + 1 => predDay (subDays d n)

/-- date-fns `addWeeks`. -/
def addWeeks (d : Date) (n : Nat) : Date :=
  addDays d (7 * n)

/-- date-fns `addMonths`: move `n` months forward, clamping the day to the
length of the target month. -/
def addMonthsFns (d : Date) (n : Nat) : Date :=
  let t := d.month - 1 + n
  let y := d.year + t / 12
  let m := t % 12 + 1
  ⟨y, m, min d.day (daysInMonth y m)⟩

/-- date-fns `addYears` (implemented as `addMonths (12 n)` over there). -/
def addYears (d : Date) (n : Nat) : Date :=
  addMonthsFns d (12 * n)

/-- date-fns `setDate d day` for `day ≥ 1` (the only way the source calls it):
native `Date.prototype.setDate` semantics, i.e. day number `day` counted from
the first of `d`'s month, rolling over into later months when `day` exceeds
the month length.  It never throws. -/
def setDate (d : Date) (day : Nat) : Date :=
  addDays ⟨d.year, d.month, 1⟩ (day - 1)

/-- Days contained in the years `0, 1, ..., y-1` of the proleptic Gregorian
calendar (year 0 is a leap year). -/
def daysBeforeYear (y : Nat) : Nat :=
  365 * y + (y + 3) / 4 - (y + 99) / 100 + (y + 399) / 400

/-- Days contained in the months `1, ..., m-1` of year `y`. -/
def daysBeforeMonth (y m : Nat) : Nat :=
  ((List.range (m - 1)).map (fun k => daysInMonth y (k + 1))).sum

/-- Linear day number of a date (days since 0000-01-01). -/
def dayNumber (d : Date) : Nat :=
  daysBeforeYear d.year + daysBeforeMonth d.year d.month + (d.day - 1)

/-- JS `Date.prototype.getDay`: 0 = Sunday, ..., 6 = Saturday
(0000-01-01 of the proleptic Gregorian calendar was a Saturday). -/
def weekday (d : Date) : Nat :=
  (dayNumber d + 6) % 7

/-- date-fns `setDay(date, dow, { weekStartsOn: 0 })` for `dow` in `0..6`:
`addDays(date, dow - getDay(date))`. -/
def setDay (d : Date) (dow : Nat) : Date :=
  if weekday d ≤ dow then addDays d (dow - weekday d)
  else subDays d (weekday d - dow)

/-- The `recurringDetails` record taken by `getNextPaymentDate`
(`null`/`undefined` fields are `none`). -/
structure RecurringDetails where
  dayOfWeek : Option Nat := none
  dayOfMonth : Option Nat := none
  monthOfYear : Option Nat := none
  dayOfYear : Option Nat := none
deriving DecidableEq, Repr

/-- `getNextPaymentDate(startDate, repeatType, count, recurringDetails)` from
`src/utils/dateUtils.js`.  Faithful to the source, including the fact that the
`try { setDate(nextDate, dayOfMonth) } catch` in the monthly branch reduces to
a plain `setDate` call: date-fns `setDate` never throws, so the catch branch
(the intended clamp to the last day of the month) is dead code. -/
def getNextPaymentDate (startDate : Date) (repeatType : String) (count : Nat)
    (rd : RecurringDetails) : Date :=
  if repeatType = "weekly" then
    match rd.dayOfWeek with
    | some dow =>
      let nextDate := setDay startDate dow
      let nextDate := if ¬ dateLt startDate nextDate then addWeeks nextDate 1 else nextDate
      addWeeks nextDate (count - 1)
    | none => addWeeks startDate count
  else if repeatType = "monthly" then
    match rd.dayOfMonth with
    | some dom =>
      let nd0 := setDate startDate (min dom 28)
      let nd1 := if ¬ dateLt startDate nd0 then addMonthsFns nd0 1 else nd0
      let nd2 := addMonthsFns nd1 (count - 1)
      setDate nd2 dom
    | none => addMonthsFns startDate count
  else if repeatType = "yearly" then
    match rd.monthOfYear, rd.dayOfYear with
    | some moy, some doy =>
      let nd0 : Date := ⟨startDate.year, moy, 1⟩
      let nd1 := setDate nd0 (min doy (daysInMonth nd0.year moy))
      let nd2 :=
        if ¬ dateLt startDate nd1 then
          let nd := addYears nd1 1
          setDate nd (min doy (daysInMonth nd.year moy))
        else nd1
      let nd3 := addYears nd2 (count - 1)
      setDate nd3 (min doy (daysInMonth nd3.year moy))
    | _, _ => addYears startDate count
  else addMonthsFns startDate count

/-- The loop condition of `generatePaymentDates`:
`isBefore(nextDate, maxDate) || format(nextDate, yyyy-MM) === format(maxDate, yyyy-MM)`. -/
def inWindow (maxDate d : Date) : Prop :=
  dateLt d maxDate ∨ (d.year = maxDate.year ∧ d.month = maxDate.month)

instance (maxDate d : Date) : Decidable (inWindow maxDate d) := by
  unfold inWindow; exact inferInstance

/-- The end-date stop test `end && isAfter(nextDate, end)`. -/
def pastEnd (endD : Option Date) (d : Date) : Bool :=
  match endD with
  | some e => decide (dateLt e d)
  | none => false

/-- The generation loop of `generatePaymentDates`: `iteration` is the current
1-based iteration, `fuel` the number of iterations still allowed by the
safety ceiling (`if (iteration > 1000) break` after each push, so at most
1000 dates are ever collected). -/
def genAux (startDate : Date) (repeatType : String) (rd : RecurringDetails)
    (endD : Option Date) (maxDate : Date) : Nat → Nat → List Date
  | _, 0 => []
  | iteration, fuel + 1 =>
    let nextDate := getNextPaymentDate startDate repeatType iteration rd
    if inWindow maxDate nextDate then
      if pastEnd endD nextDate then []
      else nextDate :: genAux startDate repeatType rd endD maxDate (iteration + 1) fuel
    else []

/-- `generatePaymentDates(startDate, repeatType, months, endDate, recurringDetails)`
from `src/utils/dateUtils.js`.  `today` makes the impure `getCurrentDate()`
explicit; `maxDate = addMonths(today, months)`. -/
def generatePaymentDates (startDate : Date) (repeatType : String) (months : Nat)
    (endD : Option Date) (rd : RecurringDetails) (today : Date) : List Date :=
  genAux startDate repeatType rd endD (addMonthsFns today months) 1 1000

/-- Validity of an `Option`-held rule parameter. -/
def optHolds (p : Nat → Prop) : Option Nat → Prop
  | none => True
  | some x => p x

instance (p : Nat → Prop) [DecidablePred p] (o : Option Nat) : Decidable (optHolds p o) := by
  cases o with
  | none => exact isTrue trivial
  | some x => exact inferInstanceAs (Decidable (p x))

/-- Ranges of the kind-specific rule parameters considered valid by the spec
(each parameter is optional). -/
def DetailsValid (rd : RecurringDetails) : Prop :=
  optHolds (fun w => w ≤ 6) rd.dayOfWeek ∧
  optHolds (fun m => 1 ≤ m ∧ m ≤ 31) rd.dayOfMonth ∧
  optHolds (fun m => 1 ≤ m ∧ m ≤ 12) rd.monthOfYear ∧
  optHolds (fun d => 1 ≤ d ∧ d ≤ 31) rd.dayOfYear

instance (rd : RecurringDetails) : Decidable (DetailsValid rd) := by
  unfold DetailsValid; exact inferInstance

/-- The three recurrence kinds named by the spec claims. -/
def RepeatKindKnown (rt : String) : Prop :=
  rt = "weekly" ∨ rt = "monthly" ∨ rt = "yearly"

instance (rt : String) : Decidable (RepeatKindKnown rt) := by
  unfold RepeatKindKnown; exact inferInstance

/-- A row of the `logs` table. -/
structure LogEntry where
  action : String
  tableName : String
  recordId : Option Nat
deriving DecidableEq, Repr

/-- A row of the `payments` table. -/
structure PaymentRow where
  id : Nat
  account_id : Nat
  due_date : Date
  amount : Int
  is_paid : Bool
  paid_date : Option Date
  note : Option String
deriving DecidableEq, Repr

/-- The persistent store: payment rows (with an autoincrement id counter) and
the log table.  `logInsertFails` models the persistence collaborator failing
log inserts. -/
structure PaymentDB where
  rows : List PaymentRow
  nextId : Nat
  logs : List LogEntry
  logInsertFails : Bool
deriving DecidableEq, Repr

/-- The raw log-table insert issued by `logAction` (`db.runAsync(INSERT INTO logs ...)`),
which may fail. -/
def logInsert (db : PaymentDB) (e : LogEntry) : Except String (List LogEntry) :=
  if db.logInsertFails then Except.error "insert failed" else Except.ok (db.logs ++ [e])

/-- `logAction` from `src/database/logs.js`: tries the insert and catches any
error internally (the source comments: logging must not break the app). -/
def logAction (db : PaymentDB) (e : LogEntry) : PaymentDB :=
  match logInsert db e with
  | Except.ok l => { db with logs := l }
  | Except.error _ => db

/-- `paymentExists(accountId, dueDate)` from `src/database/payments.js`:
`SELECT id FROM payments WHERE account_id = ? AND due_date = ?`. -/
def paymentExists (db : PaymentDB) (accountId : Nat) (dueDate : Date) : Bool :=
  db.rows.any (fun r => r.account_id == accountId && r.due_date == dueDate)

/-- The record passed to `createPayment` / `updatePayment`. -/
structure PaymentData where
  account_id : Nat
  due_date : Date
  amount : Int
  is_paid : Bool
  paid_date : Option Date
  note : Option String
deriving DecidableEq, Repr

/-- `createPayment` from `src/database/payments.js`: INSERT a fresh row, then
`logAction('CREATE', ...)`. -/
def createPayment (db : PaymentDB) (p : PaymentData) : PaymentDB :=
  let db1 : PaymentDB := { db with
    rows := db.rows ++ [⟨db.nextId, p.account_id, p.due_date, p.amount, p.is_paid, p.paid_date, p.note⟩],
    nextId := db.nextId + 1 }
  logAction db1 ⟨"CREATE", "payments", some db.nextId⟩

/-- `updatePayment` from `src/database/payments.js`: UPDATE all payload columns
of the row with the given id, then `logAction('UPDATE', ...)`. -/
def updatePayment (db : PaymentDB) (id : Nat) (p : PaymentData) : PaymentDB :=
  let db1 : PaymentDB := { db with rows := db.rows.map (fun r =>
    if r.id = id then ⟨r.id, p.account_id, p.due_date, p.amount, p.is_paid, p.paid_date, p.note⟩ else r) }
  logAction db1 ⟨"UPDATE", "payments", some id⟩

/-- `deletePaymentsByAccountId` from `src/database/payments.js`:
`DELETE FROM payments WHERE account_id = ?`, then a log write. -/
def deletePaymentsByAccountId (db : PaymentDB) (accountId : Nat) : PaymentDB :=
  let db1 : PaymentDB := { db with rows := db.rows.filter (fun r => r.account_id != accountId) }
  logAction db1 ⟨"DELETE_BY_ACCOUNT", "payments", some accountId⟩

/-- An `accounts` row, as consumed by `paymentGenerator.js`.  The stored
kind-specific recurrence columns are carried to state the frame fact that the
generator never reads them. -/
structure Account where
  id : Nat
  amount : Option Int
  repeats : String
  start_date : Date
  has_end_date : Bool
  end_date : Option Date
  day_of_week : Option Nat := none
  day_of_month : Option Nat := none
  month_of_year : Option Nat := none
  day_of_year : Option Nat := none
deriving DecidableEq, Repr

/-- The `{created, skipped, total}` record returned by
`generatePaymentsForAccount`. -/
structure GenResult where
  created : Nat
  skipped : Nat
  total : Nat
deriving DecidableEq, Repr

/-- The payload `createPayment` receives for a generated due date:
`amount = account.amount || 0`, `is_paid = 0`, `paid_date = null`, `note = null`. -/
def newPaymentData (account : Account) (dueDate : Date) : PaymentData :=
  { account_id := account.id, due_date := dueDate,
    amount := account.amount.getD 0, is_paid := false, paid_date := none, note := none }

/-- The per-date loop body of `generatePaymentsForAccount`: returns
`(created, skipped, db)`. -/
def processDates (account : Account) (skipExisting : Bool) :
    List Date → PaymentDB → Nat × Nat × PaymentDB
  | [], db => (0, 0, db)
  | d :: rest, db =>
    if skipExisting && paymentExists db account.id d then
      let r := processDates account skipExisting rest db
      (r.1, r.2.1 + 1, r.2.2)
    else
      let db1 := createPayment db (newPaymentData account d)
      let r := processDates account skipExisting rest db1
      (r.1 + 1, r.2.1, r.2.2)

/-- `account.has_end_date ? account.end_date : null`. -/
def accountEndDate (account : Account) : Option Date :=
  if account.has_end_date then account.end_date else none

/-- `generatePaymentsForAccount(account, skipExisting)` from
`src/utils/paymentGenerator.js`: a hard-coded 3-month horizon and no
`recurringDetails` argument (so the evaluator receives the empty record). -/
def generatePaymentsForAccount (account : Account) (skipExisting : Bool)
    (today : Date) (db : PaymentDB) : GenResult × PaymentDB :=
  let dates := generatePaymentDates account.start_date account.repeats 3 (accountEndDate account) {} today
  let r := processDates account skipExisting dates db
  (⟨r.1, r.2.1, dates.length⟩, r.2.2)

/-- `getAccountById` (first row with the given id). -/
def getAccountById (accounts : List Account) (id : Nat) : Option Account :=
  accounts.find? (fun a => a.id == id)

/-- `regeneratePaymentsForAccount(accountId)`: look the account up (throwing
when absent), delete all of its payments, then generate with
`skipExisting = false`, then a log write. -/
def regeneratePaymentsForAccount (accounts : List Account) (accountId : Nat)
    (today : Date) (db : PaymentDB) : Except String (GenResult × PaymentDB) :=
  match getAccountById accounts accountId with
  | none => Except.error "Account not found"
  | some account =>
    let db1 := deletePaymentsByAccountId db accountId
    let r := generatePaymentsForAccount account false today db1
    Except.ok (r.1, logAction r.2 ⟨"REGENERATE_PAYMENTS", "payments", some accountId⟩)

/-- The per-account loop of `generatePaymentsForAllAccounts`: returns
`(created, skipped, expected, db)`. -/
def genAllLoop (skipExisting : Bool) (today : Date) :
    List Account → PaymentDB → Nat × Nat × Nat × PaymentDB
  | [], db => (0, 0, 0, db)
  | a :: rest, db =>
    let r := generatePaymentsForAccount a skipExisting today db
    let rest1 := genAllLoop skipExisting today rest r.2
    (r.1.created + rest1.1, r.1.skipped + rest1.2.1, r.1.total + rest1.2.2.1, rest1.2.2.2)

/-- The summary record returned by `generatePaymentsForAllAccounts`. -/
structure AllResult where
  accountsProcessed : Nat
  created : Nat
  skipped : Nat
  expected : Nat
deriving DecidableEq, Repr

/-- `generatePaymentsForAllAccounts(skipExisting)` from
`src/utils/paymentGenerator.js`: generate per account, then one audit-sink
`logAction('GENERATE_PAYMENTS', ...)` call. -/
def generatePaymentsForAllAccounts (accounts : List Account) (skipExisting : Bool)
    (today : Date) (db : PaymentDB) : Except String (AllResult × PaymentDB) :=
  let r := genAllLoop skipExisting today accounts db
  Except.ok (⟨accounts.length, r.1, r.2.1, r.2.2.1⟩,
    logAction r.2.2.2 ⟨"GENERATE_PAYMENTS", "payments", none⟩)

/-- The unpaid-amount sync loop of `updatePaymentsForAccount`: for each payment
of the snapshot whose amount differs, `updatePayment(payment.id, {...payment,
amount: account.amount})`. -/
def updateAmountsLoop (a : Int) : List PaymentRow → PaymentDB → PaymentDB
  | [], db => db
  | p :: rest, db =>
    let db1 := if p.amount ≠ a then
        updatePayment db p.id ⟨p.account_id, p.due_date, a, p.is_paid, p.paid_date, p.note⟩
      else db
    updateAmountsLoop a rest db1

/-- `updatePaymentsForAccount(accountId)` from `src/utils/paymentGenerator.js`:
look the account up, sync unpaid payments to the account amount when
`account.amount` is truthy, then generate with `skipExisting = true`. -/
def updatePaymentsForAccount (accounts : List Account) (accountId : Nat)
    (today : Date) (db : PaymentDB) : Except String (GenResult × PaymentDB) :=
  match getAccountById accounts accountId with
  | none => Except.error "Account not found"
  | some account =>
    let existingPayments := db.rows.filter (fun r => r.account_id == accountId)
    let unpaidPayments := existingPayments.filter (fun p => !p.is_paid)
    let db1 := match account.amount with
      | some a => if a ≠ 0 then updateAmountsLoop a unpaidPayments db else db
      | none => db
    Except.ok (generatePaymentsForAccount account true today db1)

/-- Modelled from the spec: plain period addition, `anchor + k` weeks / months /
years (what the evaluator is specified to produce when all kind-specific
parameters are absent; unknown kinds default to monthly). -/
def plainPeriodAdd (anchor : Date) (rt : String) (k : Nat) : Date :=
  if rt = "weekly" then addWeeks anchor k
  else if rt = "yearly" then addYears anchor k
  else addMonthsFns anchor k

/-- Spec-side sequence generator over an abstract occurrence function, used to
state the refinement between the production path and plain period addition. -/
def seqGen (occ : Nat → Date) (endD : Option Date) (maxDate : Date) : Nat → Nat → List Date
  | _, 0 => []
  | iteration, fuel + 1 =>
    let nextDate := occ iteration
    if inWindow maxDate nextDate then
      if pastEnd endD nextDate then []
      else nextDate :: seqGen occ endD maxDate (iteration + 1) fuel
    else []

/-- Linear month index `12 * year + (month - 1)`, used to compare the
year/month components of dates. -/
def monthIndex (d : Date) : Nat :=
  12 * d.year + (d.month - 1)

/-- The first weekly occurrence candidate of the `dayOfWeek` branch after the
strictly-after tie-break. -/
def weeklyBase (anchor : Date) (dow : Nat) : Date :=
  if dateLt anchor (setDay anchor dow) then setDay anchor dow
  else addDays (setDay anchor dow) 7

/-- The first monthly occurrence candidate of the `dayOfMonth` branch (at the
safe day `min dayOfMonth 28`) after the strictly-after tie-break. -/
def monthlyBase (anchor : Date) (dom : Nat) : Date :=
  if dateLt anchor (setDate anchor (min dom 28)) then setDate anchor (min dom 28)
  else addMonthsFns (setDate anchor (min dom 28)) 1

/-- The year holding the first yearly occurrence of the `monthOfYear`/`dayOfYear`
branch after the strictly-after tie-break. -/
def yearlyBaseYear (anchor : Date) (moy doy : Nat) : Nat :=
  if dateLt anchor ⟨anchor.year, moy, min doy (daysInMonth anchor.year moy)⟩ then anchor.year
  else anchor.year + 1

/-- The row `createPayment` appends for due date `d` when the store counter is
at `id`. -/
def mkFreshRow (account : Account) (id : Nat) (d : Date) : PaymentRow :=
  ⟨id, account.id, d, account.amount.getD 0, false, none, none⟩

/-- The rows appended by an unconditional (`skipExisting = false`) generation
pass over `dates`, starting at id counter `n`. -/
def freshRows (account : Account) : Nat → List Date → List PaymentRow
  | _, [] => []
  | n, d :: ds => mkFreshRow account n d :: freshRows account (n + 1) ds

/-- A concrete account fixture used by witnesses: monthly rule anchored
2025-01-15, default amount 100, no end date. -/
def sampleAccount : Account :=
  { id := 1, amount := some 100, repeats := "monthly", start_date := ⟨2025, 1, 15⟩,
    has_end_date := false, end_date := none }

/-- A concrete account fixture whose default amount was edited to 500. -/
def sampleAccount500 : Account :=
  { id := 1, amount := some 500, repeats := "monthly", start_date := ⟨2025, 1, 15⟩,
    has_end_date := false, end_date := none }

/-- A paid payment row fixture with a custom amount and a note. -/
def samplePaidRow : PaymentRow :=
  ⟨0, 1, ⟨2025, 2, 15⟩, 55, true, some ⟨2025, 2, 16⟩, some "x"⟩

/-- An unpaid payment row fixture with amount 300. -/
def sampleUnpaidRow : PaymentRow :=
  ⟨0, 1, ⟨2025, 2, 15⟩, 300, false, none, none⟩

/-- A store fixture holding only `samplePaidRow`. -/
def sampleDB : PaymentDB :=
  { rows := [samplePaidRow], nextId := 1, logs := [], logInsertFails := false }

/-- A store fixture holding only `sampleUnpaidRow`. -/
def sampleUnpaidDB : PaymentDB :=
  { rows := [sampleUnpaidRow], nextId := 1, logs := [], logInsertFails := false }

/-- How the amount-sync loop of `updatePaymentsForAccount` relates a stored row
`r1` to its original snapshot `r0` while the unpaid rows in `rem` are still
waiting to be processed: everything except the amount is preserved, and the
amount is exactly the account amount `a` on every already-processed unpaid row
of the account (those not in `rem`), and exactly the original amount elsewhere. -/
def rowRel (a : Int) (accountId : Nat) (rows0 rem : List PaymentRow)
    (r0 r1 : PaymentRow) : Prop :=
  r0 ∈ rows0 ∧ r1.id = r0.id ∧ r1.account_id = r0.account_id ∧
  r1.due_date = r0.due_date ∧ r1.is_paid = r0.is_paid ∧ r1.paid_date = r0.paid_date ∧
  r1.note = r0.note ∧
  r1.amount = if r0.account_id = accountId ∧ r0.is_paid = false ∧ r0 ∉ rem then a
    else r0.amount

end BillManager

namespace BillManager

theorem daysInMonth_bounds (y m : Nat) : 28 ≤ daysInMonth y m ∧ daysInMonth y m ≤ 31 := by
  unfold daysInMonth
  split_ifs <;> omega

theorem dateLe_refl (a : Date) : dateLe a a := by
  unfold dateLe; omega

theorem dateLt_trans {a b c : Date} (h1 : dateLt a b) (h2 : dateLt b c) : dateLt a c := by
  unfold dateLt at *; omega

theorem dateLt_of_le_of_lt {a b c : Date} (h1 : dateLe a b) (h2 : dateLt b c) : dateLt a c := by
  unfold dateLt dateLe at *; omega

theorem dateLt_of_lt_of_le {a b c : Date} (h1 : dateLt a b) (h2 : dateLe b c) : dateLt a c := by
  unfold dateLt dateLe at *; omega

theorem dateLe_trans {a b c : Date} (h1 : dateLe a b) (h2 : dateLe b c) : dateLe a c := by
  unfold dateLe at *; omega

theorem dateLe_of_lt {a b : Date} (h : dateLt a b) : dateLe a b := by
  unfold dateLt dateLe at *; omega

theorem dateLt_asymm {a b : Date} (h1 : dateLe a b) (h2 : dateLt b a) : False := by
  unfold dateLt dateLe at *; omega

theorem dateLe_iff {a b : Date} : dateLe a b ↔ dateLt a b ∨ a = b := by
  cases a with
  | mk ay am ad =>
    cases b with
    | mk by_ bm bd =>
      simp only [dateLe, dateLt, Date.mk.injEq]
      omega

theorem succDay_lt (d : Date) : dateLt d (succDay d) := by
  unfold succDay dateLt
  split_ifs <;> simp <;> omega

theorem succDay_valid {d : Date} (h : ValidDate d) : ValidDate (succDay d) := by
  obtain ⟨h1, h2, h3, h4, h5⟩ := h
  have hb12 := daysInMonth_bounds d.year (d.month + 1)
  have hb1 := daysInMonth_bounds (d.year + 1) 1
  unfold succDay
  split_ifs with g1 g2 <;> (unfold ValidDate; simp; omega)

theorem succDay_le_of_lt {a b : Date} (ha : ValidDate a) (hb : ValidDate b)
    (h : dateLt a b) : dateLe (succDay a) b := by
  obtain ⟨ha1, ha2, ha3, ha4, ha5⟩ := ha
  obtain ⟨hb1, hb2, hb3, hb4, hb5⟩ := hb
  rcases h with hy | ⟨hy, hm | ⟨hm, hd⟩⟩
  · unfold succDay dateLe
    split_ifs <;> simp <;> omega
  · unfold succDay dateLe
    split_ifs <;> simp <;> omega
  · have hL : daysInMonth a.year a.month = daysInMonth b.year b.month := by
      rw [hy, hm]
    unfold succDay dateLe
    split_ifs <;> simp <;> omega

theorem succDay_strictMono {a b : Date} (ha : ValidDate a) (hb : ValidDate b)
    (h : dateLt a b) : dateLt (succDay a) (succDay b) :=
  dateLt_of_le_of_lt (succDay_le_of_lt ha hb h) (succDay_lt b)

theorem addDays_add (d : Date) (a b : Nat) : addDays d (a + b) = addDays (addDays d a) b := by
  induction b with
  | zero => rfl
  | succ n ih => show succDay (addDays d (a + n)) = _ ; rw [ih] ; rfl

theorem addDays_valid {d : Date} (h : ValidDate d) (n : Nat) : ValidDate (addDays d n) := by
  induction n with
  | zero => exact h
  | succ n ih => exact succDay_valid ih

theorem le_addDays (d : Date) (n : Nat) : dateLe d (addDays d n) := by
  induction n with
  | zero => exact dateLe_refl d
  | succ n ih => exact dateLe_trans ih (dateLe_of_lt (succDay_lt (addDays d n)))

theorem lt_addDays (d : Date) {n : Nat} (h : 1 ≤ n) : dateLt d (addDays d n) := by
  cases n with
  | zero => omega
  | succ n => exact dateLt_of_le_of_lt (le_addDays d n) (succDay_lt (addDays d n))

theorem addDays_strictMono {a b : Date} (ha : ValidDate a) (hb : ValidDate b)
    (h : dateLt a b) (n : Nat) : dateLt (addDays a n) (addDays b n) := by
  induction n with
  | zero => exact h
  | succ n ih => exact succDay_strictMono (addDays_valid ha n) (addDays_valid hb n) ih

theorem addDays_shift (d : Date) (n : Nat) : addDays d (n + 1) = addDays (succDay d) n := by
  induction n with
  | zero => rfl
  | succ n ih => show succDay (addDays d (n + 1)) = _ ; rw [ih] ; rfl

end BillManager

namespace BillManager

theorem daysInMonth_twelve (y : Nat) : daysInMonth y 12 = 31 := by
  unfold daysInMonth; norm_num

theorem succDay_predDay {d : Date} (h1 : 1 ≤ d.month) (h2 : d.month ≤ 12)
    (h3 : 1 ≤ d.day) (h4 : d.day ≤ daysInMonth d.year d.month)
    (h5 : 1 ≤ d.year ∨ d.month = 12) :
    succDay (predDay d) = d := by
  obtain ⟨y, m, day⟩ := d
  simp only at h1 h2 h3 h4 h5
  have hbm := daysInMonth_bounds y (m - 1)
  have h12a := daysInMonth_twelve y
  have h12b := daysInMonth_twelve (y - 1)
  unfold predDay succDay
  split_ifs <;> simp_all <;> omega

theorem subDays_chain {d : Date} (hv : ValidDate d) :
    ∀ j, j ≤ 30 →
      (1 ≤ (subDays d j).month ∧ (subDays d j).month ≤ 12 ∧ 1 ≤ (subDays d j).day ∧
        (subDays d j).day ≤ daysInMonth (subDays d j).year (subDays d j).month ∧
        (1 ≤ (subDays d j).year ∨ ((subDays d j).month = 12 ∧ 31 - j ≤ (subDays d j).day))) ∧
      addDays (subDays d j) j = d := by
  obtain ⟨hv1, hv2, hv3, hv4, hv5⟩ := hv
  intro j
  induction j with
  | zero => exact fun _ => ⟨⟨hv2, hv3, hv4, hv5, Or.inl hv1⟩, rfl⟩
  | succ j ih =>
    intro hj
    obtain ⟨⟨p1, p2, p3, p4, p5⟩, hadd⟩ := ih (by omega)
    have hsp : succDay (predDay (subDays d j)) = subDays d j :=
      succDay_predDay p1 p2 p3 p4 (by omega)
    have hstep : subDays d (j + 1) = predDay (subDays d j) := rfl
    constructor
    · rw [hstep]
      have hbm := daysInMonth_bounds (subDays d j).year ((subDays d j).month - 1)
      have h12 := daysInMonth_twelve ((subDays d j).year - 1)
      have hsame := daysInMonth_bounds (subDays d j).year (subDays d j).month
      unfold predDay
      split_ifs with g1 g2 <;> (simp only []; simp) <;> omega
    · rw [hstep, addDays_shift, hsp, hadd]

theorem addDays_in_month {y m : Nat} (k : Nat) (h : k + 1 ≤ daysInMonth y m) :
    addDays ⟨y, m, 1⟩ k = ⟨y, m, 1 + k⟩ := by
  induction k with
  | zero => rfl
  | succ k ih =>
    show succDay (addDays ⟨y, m, 1⟩ k) = _
    rw [ih (by omega)]
    unfold succDay
    rw [if_pos (by simp; omega)]
    simp
    omega

theorem setDate_eq_of_le {d : Date} {day : Nat} (h1 : 1 ≤ day)
    (h2 : day ≤ daysInMonth d.year d.month) :
    setDate d day = ⟨d.year, d.month, day⟩ := by
  unfold setDate
  rw [addDays_in_month (day - 1) (by omega)]
  congr 1
  omega

theorem monthIndex_addMonthsFns (d : Date) (n : Nat) :
    monthIndex (addMonthsFns d n) = 12 * d.year + (d.month - 1 + n) := by
  unfold monthIndex addMonthsFns
  simp
  omega

theorem addMonthsFns_month_bounds (d : Date) (n : Nat) :
    1 ≤ (addMonthsFns d n).month ∧ (addMonthsFns d n).month ≤ 12 := by
  unfold addMonthsFns
  simp
  omega

theorem addMonthsFns_valid {d : Date} (h : ValidDate d) (n : Nat) :
    ValidDate (addMonthsFns d n) := by
  obtain ⟨h1, h2, h3, h4, h5⟩ := h
  have hb := daysInMonth_bounds (d.year + (d.month - 1 + n) / 12) ((d.month - 1 + n) % 12 + 1)
  unfold addMonthsFns ValidDate
  simp
  omega

theorem addMonthsFns_day_le (d : Date) (n : Nat) (h : d.day ≤ 28) :
    (addMonthsFns d n).day = d.day := by
  have hb := daysInMonth_bounds (d.year + (d.month - 1 + n) / 12) ((d.month - 1 + n) % 12 + 1)
  unfold addMonthsFns
  simp
  omega

theorem dateLt_of_monthIndex_lt {a b : Date} (ha1 : 1 ≤ a.month) (ha2 : a.month ≤ 12)
    (hb1 : 1 ≤ b.month) (hb2 : b.month ≤ 12) (h : monthIndex a < monthIndex b) :
    dateLt a b := by
  unfold monthIndex at h
  unfold dateLt
  omega

theorem addMonthsFns_zero {d : Date} (h : ValidDate d) : addMonthsFns d 0 = d := by
  obtain ⟨y, m, day⟩ := d
  obtain ⟨h1, h2, h3, h4, h5⟩ := h
  simp only at h1 h2 h3 h4 h5
  unfold addMonthsFns
  simp only []
  have e1 : (m - 1 + 0) / 12 = 0 := by omega
  have e2 : (m - 1 + 0) % 12 = m - 1 := by omega
  rw [e1, e2]
  have e3 : m - 1 + 1 = m := by omega
  rw [e3]
  simp only [Nat.add_zero]
  rw [Nat.min_eq_left h5]

theorem addYears_eq {d : Date} (h1 : 1 ≤ d.month) (h2 : d.month ≤ 12) (n : Nat) :
    addYears d n = ⟨d.year + n, d.month, min d.day (daysInMonth (d.year + n) d.month)⟩ := by
  simp only [addYears, addMonthsFns]
  have e1 : (d.month - 1 + 12 * n) / 12 = n := by omega
  have e2 : (d.month - 1 + 12 * n) % 12 = d.month - 1 := by omega
  rw [e1, e2]
  have e3 : d.month - 1 + 1 = d.month := by omega
  rw [e3]

end BillManager

namespace BillManager

theorem gnpd_weekly_none {anchor : Date} {rd : RecurringDetails} (h : rd.dayOfWeek = none)
    (count : Nat) : getNextPaymentDate anchor "weekly" count rd = addDays anchor (7 * count) := by
  unfold getNextPaymentDate
  rw [h]
  simp [addWeeks]

theorem gnpd_weekly_some {anchor : Date} {rd : RecurringDetails} {dow : Nat}
    (h : rd.dayOfWeek = some dow) (count : Nat) :
    getNextPaymentDate anchor "weekly" count rd =
      addDays (weeklyBase anchor dow) (7 * (count - 1)) := by
  unfold getNextPaymentDate weeklyBase
  rw [h]
  simp [addWeeks]

theorem gnpd_monthly_none {anchor : Date} {rd : RecurringDetails} (h : rd.dayOfMonth = none)
    (count : Nat) : getNextPaymentDate anchor "monthly" count rd = addMonthsFns anchor count := by
  unfold getNextPaymentDate
  rw [h]
  simp

theorem gnpd_monthly_some {anchor : Date} {rd : RecurringDetails} {dom : Nat}
    (h : rd.dayOfMonth = some dom) (count : Nat) :
    getNextPaymentDate anchor "monthly" count rd =
      setDate (addMonthsFns (monthlyBase anchor dom) (count - 1)) dom := by
  unfold getNextPaymentDate monthlyBase
  rw [h]
  simp

theorem gnpd_yearly_fallback {anchor : Date} {rd : RecurringDetails}
    (h : rd.monthOfYear = none ∨ rd.dayOfYear = none) (count : Nat) :
    getNextPaymentDate anchor "yearly" count rd = addYears anchor count := by
  unfold getNextPaymentDate
  rcases h with h | h <;> rw [h] <;> cases hm : rd.monthOfYear <;> cases hd : rd.dayOfYear <;> simp

theorem gnpd_default {anchor : Date} {rt : String} {rd : RecurringDetails}
    (h1 : rt ≠ "weekly") (h2 : rt ≠ "monthly") (h3 : rt ≠ "yearly") (count : Nat) :
    getNextPaymentDate anchor rt count rd = addMonthsFns anchor count := by
  unfold getNextPaymentDate
  rw [if_neg h1, if_neg h2, if_neg h3]

end BillManager

namespace BillManager

theorem weekday_lt_seven (d : Date) : weekday d < 7 :=
  Nat.mod_lt _ (by norm_num)

theorem weeklyBase_gt {anchor : Date} (hv : ValidDate anchor) (dow : Nat) :
    dateLt anchor (weeklyBase anchor dow) := by
  unfold weeklyBase
  split_ifs with h
  · exact h
  · unfold setDay
    by_cases hw : weekday anchor ≤ dow
    · rw [if_pos hw, ← addDays_add]
      exact lt_addDays anchor (by omega)
    · rw [if_neg hw]
      have hk6 : weekday anchor - dow ≤ 6 := by
        have := weekday_lt_seven anchor; omega
      have hchain := (subDays_chain hv (weekday anchor - dow) (by omega)).2
      have heq : addDays (subDays anchor (weekday anchor - dow)) 7
          = addDays anchor (7 - (weekday anchor - dow)) := by
        nth_rewrite 1 [show (7 : Nat)
          = weekday anchor - dow + (7 - (weekday anchor - dow)) from by omega]
        rw [addDays_add, hchain]
      rw [heq]
      exact lt_addDays anchor (by omega)

theorem occ_weekly_none_step {anchor : Date} {rd : RecurringDetails}
    (h : rd.dayOfWeek = none) (count : Nat) :
    dateLt (getNextPaymentDate anchor "weekly" count rd)
      (getNextPaymentDate anchor "weekly" (count + 1) rd) := by
  rw [gnpd_weekly_none h, gnpd_weekly_none h]
  have e : 7 * (count + 1) = 7 * count + 7 := by omega
  rw [e, addDays_add]
  exact lt_addDays _ (by omega)

theorem occ_weekly_none_one {anchor : Date} {rd : RecurringDetails}
    (h : rd.dayOfWeek = none) :
    dateLt anchor (getNextPaymentDate anchor "weekly" 1 rd) := by
  rw [gnpd_weekly_none h]
  exact lt_addDays anchor (by omega)

theorem occ_weekly_some_step {anchor : Date} {rd : RecurringDetails} {dow : Nat}
    (h : rd.dayOfWeek = some dow) {count : Nat} (hc : 1 ≤ count) :
    dateLt (getNextPaymentDate anchor "weekly" count rd)
      (getNextPaymentDate anchor "weekly" (count + 1) rd) := by
  rw [gnpd_weekly_some h, gnpd_weekly_some h]
  have e : 7 * (count + 1 - 1) = 7 * (count - 1) + 7 := by omega
  rw [e, addDays_add]
  exact lt_addDays _ (by omega)

theorem occ_weekly_some_one {anchor : Date} {rd : RecurringDetails} {dow : Nat}
    (hv : ValidDate anchor) (h : rd.dayOfWeek = some dow) :
    dateLt anchor (getNextPaymentDate anchor "weekly" 1 rd) := by
  rw [gnpd_weekly_some h]
  exact weeklyBase_gt hv dow

theorem addMonthsFns_gt {anchor : Date} (hv : ValidDate anchor) {n : Nat} (hn : 1 ≤ n) :
    dateLt anchor (addMonthsFns anchor n) := by
  obtain ⟨h1, h2, h3, h4, h5⟩ := hv
  have hb := addMonthsFns_month_bounds anchor n
  apply dateLt_of_monthIndex_lt h2 h3 hb.1 hb.2
  rw [monthIndex_addMonthsFns]
  unfold monthIndex
  omega

theorem addMonthsFns_step (anchor : Date) (n : Nat) :
    dateLt (addMonthsFns anchor n) (addMonthsFns anchor (n + 1)) := by
  have hbn := addMonthsFns_month_bounds anchor n
  have hbn1 := addMonthsFns_month_bounds anchor (n + 1)
  apply dateLt_of_monthIndex_lt hbn.1 hbn.2 hbn1.1 hbn1.2
  rw [monthIndex_addMonthsFns, monthIndex_addMonthsFns]
  omega

end BillManager

namespace BillManager

theorem firstOfMonth_valid {d : Date} (h : ValidDate d) :
    ValidDate (⟨d.year, d.month, 1⟩ : Date) := by
  obtain ⟨h1, h2, h3, h4, h5⟩ := h
  have hb := daysInMonth_bounds d.year d.month
  refine ⟨h1, h2, h3, le_refl 1, ?_⟩
  show 1 ≤ daysInMonth d.year d.month
  omega

theorem monthlyBase_facts {anchor : Date} (hv : ValidDate anchor) {dom : Nat}
    (hd1 : 1 ≤ dom) (hd31 : dom ≤ 31) :
    ValidDate (monthlyBase anchor dom) ∧ (monthlyBase anchor dom).day = min dom 28 ∧
      dateLt anchor (monthlyBase anchor dom) := by
  obtain ⟨h1, h2, h3, h4, h5⟩ := hv
  have hbm := daysInMonth_bounds anchor.year anchor.month
  have hset : setDate anchor (min dom 28) = ⟨anchor.year, anchor.month, min dom 28⟩ :=
    setDate_eq_of_le (by omega) (by omega)
  have hvmk : ValidDate ⟨anchor.year, anchor.month, min dom 28⟩ :=
    ⟨h1, h2, h3, by simp; omega, by simp; omega⟩
  unfold monthlyBase
  rw [hset]
  split_ifs with hlt
  · exact ⟨hvmk, by simp, hlt⟩
  · refine ⟨addMonthsFns_valid hvmk 1, ?_, ?_⟩
    · have hle : (⟨anchor.year, anchor.month, min dom 28⟩ : Date).day ≤ 28 := by
        show min dom 28 ≤ 28
        omega
      have := addMonthsFns_day_le ⟨anchor.year, anchor.month, min dom 28⟩ 1 hle
      simpa using this
    · have hb := addMonthsFns_month_bounds ⟨anchor.year, anchor.month, min dom 28⟩ 1
      apply dateLt_of_monthIndex_lt h2 h3 hb.1 hb.2
      rw [monthIndex_addMonthsFns]
      unfold monthIndex
      simp

theorem occ_monthly_some_step {anchor : Date} {rd : RecurringDetails} {dom : Nat}
    (hv : ValidDate anchor) (h : rd.dayOfMonth = some dom)
    (hd1 : 1 ≤ dom) (hd31 : dom ≤ 31) {count : Nat} (hc : 1 ≤ count) :
    dateLt (getNextPaymentDate anchor "monthly" count rd)
      (getNextPaymentDate anchor "monthly" (count + 1) rd) := by
  obtain ⟨hvb, hday, hgt⟩ := monthlyBase_facts hv hd1 hd31
  rw [gnpd_monthly_some h, gnpd_monthly_some h]
  simp only [Nat.add_sub_cancel]
  have hv1 := addMonthsFns_valid hvb (count - 1)
  have hv2 := addMonthsFns_valid hvb count
  show dateLt
    (addDays ⟨(addMonthsFns (monthlyBase anchor dom) (count - 1)).year,
      (addMonthsFns (monthlyBase anchor dom) (count - 1)).month, 1⟩ (dom - 1))
    (addDays ⟨(addMonthsFns (monthlyBase anchor dom) count).year,
      (addMonthsFns (monthlyBase anchor dom) count).month, 1⟩ (dom - 1))
  apply addDays_strictMono (firstOfMonth_valid hv1) (firstOfMonth_valid hv2)
  refine dateLt_of_monthIndex_lt hv1.2.1 hv1.2.2.1 hv2.2.1 hv2.2.2.1 ?_
  show monthIndex (addMonthsFns (monthlyBase anchor dom) (count - 1))
    < monthIndex (addMonthsFns (monthlyBase anchor dom) count)
  rw [monthIndex_addMonthsFns, monthIndex_addMonthsFns]
  omega

theorem occ_monthly_some_one {anchor : Date} {rd : RecurringDetails} {dom : Nat}
    (hv : ValidDate anchor) (h : rd.dayOfMonth = some dom)
    (hd1 : 1 ≤ dom) (hd31 : dom ≤ 31) :
    dateLt anchor (getNextPaymentDate anchor "monthly" 1 rd) := by
  obtain ⟨hvb, hday, hgt⟩ := monthlyBase_facts hv hd1 hd31
  rw [gnpd_monthly_some h]
  have hz : addMonthsFns (monthlyBase anchor dom) (1 - 1) = monthlyBase anchor dom := by
    simpa using addMonthsFns_zero hvb
  rw [hz]
  obtain ⟨hb1, hb2, hb3, hb4, hb5⟩ := hvb
  have hLB := daysInMonth_bounds (monthlyBase anchor dom).year (monthlyBase anchor dom).month
  by_cases hcase : dom ≤ 28
  · have hsd : setDate (monthlyBase anchor dom) dom
        = ⟨(monthlyBase anchor dom).year, (monthlyBase anchor dom).month, dom⟩ :=
      setDate_eq_of_le (by omega) (by omega)
    rw [hsd]
    have hdomday : (monthlyBase anchor dom).day = dom := by rw [hday]; omega
    unfold dateLt at hgt ⊢
    simp only at hgt ⊢
    omega
  · have e : dom - 1 = 27 + (dom - 28) := by omega
    show dateLt anchor (addDays
      ⟨(monthlyBase anchor dom).year, (monthlyBase anchor dom).month, 1⟩ (dom - 1))
    rw [e, addDays_add]
    have h27 : addDays ⟨(monthlyBase anchor dom).year, (monthlyBase anchor dom).month, 1⟩ 27
        = ⟨(monthlyBase anchor dom).year, (monthlyBase anchor dom).month, 28⟩ :=
      addDays_in_month 27 (by simp; omega)
    rw [h27]
    have hBday : (monthlyBase anchor dom).day = 28 := by rw [hday]; omega
    have hBfull : (⟨(monthlyBase anchor dom).year, (monthlyBase anchor dom).month, 28⟩ : Date)
        = monthlyBase anchor dom := by
      rw [← hBday]
    rw [hBfull]
    exact dateLt_of_lt_of_le hgt (le_addDays (monthlyBase anchor dom) (dom - 28))

end BillManager

namespace BillManager

theorem gnpd_yearly_some_pos {anchor : Date} {rd : RecurringDetails} {moy doy : Nat}
    (hm : rd.monthOfYear = some moy) (hd : rd.dayOfYear = some doy)
    (hm1 : 1 ≤ moy) (hm12 : moy ≤ 12) (hd1 : 1 ≤ doy)
    (hlt : dateLt anchor ⟨anchor.year, moy, min doy (daysInMonth anchor.year moy)⟩)
    (count : Nat) :
    getNextPaymentDate anchor "yearly" count rd =
      ⟨anchor.year + (count - 1), moy,
        min doy (daysInMonth (anchor.year + (count - 1)) moy)⟩ := by
  have hL0 := daysInMonth_bounds anchor.year moy
  have hL2 := daysInMonth_bounds (anchor.year + (count - 1)) moy
  have hset1 : setDate (⟨anchor.year, moy, 1⟩ : Date) (min doy (daysInMonth anchor.year moy))
      = ⟨anchor.year, moy, min doy (daysInMonth anchor.year moy)⟩ :=
    setDate_eq_of_le (by omega)
      (show min doy (daysInMonth anchor.year moy) ≤ daysInMonth anchor.year moy by omega)
  unfold getNextPaymentDate
  rw [hm, hd, if_neg (by decide : ¬ (("yearly" : String) = "weekly")),
    if_neg (by decide : ¬ (("yearly" : String) = "monthly")), if_pos rfl]
  simp only []
  rw [hset1]
  rw [if_neg (not_not_intro hlt)]
  have hay : addYears (⟨anchor.year, moy, min doy (daysInMonth anchor.year moy)⟩ : Date) (count - 1)
      = ⟨anchor.year + (count - 1), moy,
          min (min doy (daysInMonth anchor.year moy)) (daysInMonth (anchor.year + (count - 1)) moy)⟩ :=
    addYears_eq hm1 hm12 (count - 1)
  rw [hay]
  exact setDate_eq_of_le
    (show 1 ≤ min doy (daysInMonth (anchor.year + (count - 1)) moy) by omega)
    (show min doy (daysInMonth (anchor.year + (count - 1)) moy)
        ≤ daysInMonth (anchor.year + (count - 1)) moy by omega)

theorem gnpd_yearly_some_neg {anchor : Date} {rd : RecurringDetails} {moy doy : Nat}
    (hm : rd.monthOfYear = some moy) (hd : rd.dayOfYear = some doy)
    (hm1 : 1 ≤ moy) (hm12 : moy ≤ 12) (hd1 : 1 ≤ doy)
    (hlt : ¬ dateLt anchor ⟨anchor.year, moy, min doy (daysInMonth anchor.year moy)⟩)
    (count : Nat) :
    getNextPaymentDate anchor "yearly" count rd =
      ⟨anchor.year + 1 + (count - 1), moy,
        min doy (daysInMonth (anchor.year + 1 + (count - 1)) moy)⟩ := by
  have hL0 := daysInMonth_bounds anchor.year moy
  have hL1 := daysInMonth_bounds (anchor.year + 1) moy
  have hL2 := daysInMonth_bounds (anchor.year + 1 + (count - 1)) moy
  have hset1 : setDate (⟨anchor.year, moy, 1⟩ : Date) (min doy (daysInMonth anchor.year moy))
      = ⟨anchor.year, moy, min doy (daysInMonth anchor.year moy)⟩ :=
    setDate_eq_of_le (by omega)
      (show min doy (daysInMonth anchor.year moy) ≤ daysInMonth anchor.year moy by omega)
  unfold getNextPaymentDate
  rw [hm, hd, if_neg (by decide : ¬ (("yearly" : String) = "weekly")),
    if_neg (by decide : ¬ (("yearly" : String) = "monthly")), if_pos rfl]
  simp only []
  rw [hset1]
  rw [if_pos hlt]
  have hay1 : addYears (⟨anchor.year, moy, min doy (daysInMonth anchor.year moy)⟩ : Date) 1
      = ⟨anchor.year + 1, moy,
          min (min doy (daysInMonth anchor.year moy)) (daysInMonth (anchor.year + 1) moy)⟩ :=
    addYears_eq hm1 hm12 1
  rw [hay1]
  simp only []
  have hset2 : setDate (⟨anchor.year + 1, moy,
        min (min doy (daysInMonth anchor.year moy)) (daysInMonth (anchor.year + 1) moy)⟩ : Date)
      (min doy (daysInMonth (anchor.year + 1) moy))
      = ⟨anchor.year + 1, moy, min doy (daysInMonth (anchor.year + 1) moy)⟩ :=
    setDate_eq_of_le (by omega)
      (show min doy (daysInMonth (anchor.year + 1) moy) ≤ daysInMonth (anchor.year + 1) moy by omega)
  rw [hset2]
  have hay2 : addYears (⟨anchor.year + 1, moy, min doy (daysInMonth (anchor.year + 1) moy)⟩ : Date)
      (count - 1)
      = ⟨anchor.year + 1 + (count - 1), moy,
          min (min doy (daysInMonth (anchor.year + 1) moy))
            (daysInMonth (anchor.year + 1 + (count - 1)) moy)⟩ :=
    addYears_eq hm1 hm12 (count - 1)
  rw [hay2]
  exact setDate_eq_of_le
    (show 1 ≤ min doy (daysInMonth (anchor.year + 1 + (count - 1)) moy) by omega)
    (show min doy (daysInMonth (anchor.year + 1 + (count - 1)) moy)
        ≤ daysInMonth (anchor.year + 1 + (count - 1)) moy by omega)

end BillManager

namespace BillManager

theorem occ_yearly_fallback_step {anchor : Date} {rd : RecurringDetails}
    (hv : ValidDate anchor) (h : rd.monthOfYear = none ∨ rd.dayOfYear = none) (count : Nat) :
    dateLt (getNextPaymentDate anchor "yearly" count rd)
      (getNextPaymentDate anchor "yearly" (count + 1) rd) := by
  rw [gnpd_yearly_fallback h, gnpd_yearly_fallback h]
  rw [addYears_eq hv.2.1 hv.2.2.1, addYears_eq hv.2.1 hv.2.2.1]
  exact Or.inl (show anchor.year + count < anchor.year + (count + 1) by omega)

theorem occ_yearly_fallback_one {anchor : Date} {rd : RecurringDetails}
    (hv : ValidDate anchor) (h : rd.monthOfYear = none ∨ rd.dayOfYear = none) :
    dateLt anchor (getNextPaymentDate anchor "yearly" 1 rd) := by
  rw [gnpd_yearly_fallback h, addYears_eq hv.2.1 hv.2.2.1]
  exact Or.inl (show anchor.year < anchor.year + 1 by omega)

theorem occ_yearly_some_step {anchor : Date} {rd : RecurringDetails} {moy doy : Nat}
    (hm : rd.monthOfYear = some moy) (hd : rd.dayOfYear = some doy)
    (hm1 : 1 ≤ moy) (hm12 : moy ≤ 12) (hd1 : 1 ≤ doy) {count : Nat} (hc : 1 ≤ count) :
    dateLt (getNextPaymentDate anchor "yearly" count rd)
      (getNextPaymentDate anchor "yearly" (count + 1) rd) := by
  by_cases hlt : dateLt anchor ⟨anchor.year, moy, min doy (daysInMonth anchor.year moy)⟩
  · rw [gnpd_yearly_some_pos hm hd hm1 hm12 hd1 hlt, gnpd_yearly_some_pos hm hd hm1 hm12 hd1 hlt]
    exact Or.inl (show anchor.year + (count - 1) < anchor.year + (count + 1 - 1) by omega)
  · rw [gnpd_yearly_some_neg hm hd hm1 hm12 hd1 hlt, gnpd_yearly_some_neg hm hd hm1 hm12 hd1 hlt]
    exact Or.inl (show anchor.year + 1 + (count - 1) < anchor.year + 1 + (count + 1 - 1) by omega)

theorem occ_yearly_some_one {anchor : Date} {rd : RecurringDetails} {moy doy : Nat}
    (hm : rd.monthOfYear = some moy) (hd : rd.dayOfYear = some doy)
    (hm1 : 1 ≤ moy) (hm12 : moy ≤ 12) (hd1 : 1 ≤ doy) :
    dateLt anchor (getNextPaymentDate anchor "yearly" 1 rd) := by
  by_cases hlt : dateLt anchor ⟨anchor.year, moy, min doy (daysInMonth anchor.year moy)⟩
  · rw [gnpd_yearly_some_pos hm hd hm1 hm12 hd1 hlt]
    exact hlt
  · rw [gnpd_yearly_some_neg hm hd hm1 hm12 hd1 hlt]
    exact Or.inl (show anchor.year < anchor.year + 1 + (1 - 1) by omega)

end BillManager

namespace BillManager

theorem occ_step {anchor : Date} {rt : String} {rd : RecurringDetails}
    (hv : ValidDate anchor) (hrd : DetailsValid rd) {count : Nat} (hc : 1 ≤ count) :
    dateLt (getNextPaymentDate anchor rt count rd)
      (getNextPaymentDate anchor rt (count + 1) rd) := by
  obtain ⟨hw, hm, hmy, hdy⟩ := hrd
  by_cases h1 : rt = "weekly"
  · subst h1
    cases hdow : rd.dayOfWeek with
    | none => exact occ_weekly_none_step hdow count
    | some dow => exact occ_weekly_some_step hdow hc
  by_cases h2 : rt = "monthly"
  · subst h2
    cases hdom : rd.dayOfMonth with
    | none =>
      rw [gnpd_monthly_none hdom, gnpd_monthly_none hdom]
      exact addMonthsFns_step anchor count
    | some dom =>
      rw [hdom] at hm
      exact occ_monthly_some_step hv hdom hm.1 hm.2 hc
  by_cases h3 : rt = "yearly"
  · subst h3
    cases hmoy : rd.monthOfYear with
    | none => exact occ_yearly_fallback_step hv (Or.inl hmoy) count
    | some moy =>
      cases hdoy : rd.dayOfYear with
      | none => exact occ_yearly_fallback_step hv (Or.inr hdoy) count
      | some doy =>
        rw [hmoy] at hmy
        rw [hdoy] at hdy
        exact occ_yearly_some_step hmoy hdoy hmy.1 hmy.2 hdy.1 hc
  · rw [gnpd_default h1 h2 h3, gnpd_default h1 h2 h3]
    exact addMonthsFns_step anchor count

theorem occ_one {anchor : Date} {rt : String} {rd : RecurringDetails}
    (hv : ValidDate anchor) (hrd : DetailsValid rd) :
    dateLt anchor (getNextPaymentDate anchor rt 1 rd) := by
  obtain ⟨hw, hm, hmy, hdy⟩ := hrd
  by_cases h1 : rt = "weekly"
  · subst h1
    cases hdow : rd.dayOfWeek with
    | none => exact occ_weekly_none_one hdow
    | some dow => exact occ_weekly_some_one hv hdow
  by_cases h2 : rt = "monthly"
  · subst h2
    cases hdom : rd.dayOfMonth with
    | none =>
      rw [gnpd_monthly_none hdom]
      exact addMonthsFns_gt hv (by omega)
    | some dom =>
      rw [hdom] at hm
      exact occ_monthly_some_one hv hdom hm.1 hm.2
  by_cases h3 : rt = "yearly"
  · subst h3
    cases hmoy : rd.monthOfYear with
    | none => exact occ_yearly_fallback_one hv (Or.inl hmoy)
    | some moy =>
      cases hdoy : rd.dayOfYear with
      | none => exact occ_yearly_fallback_one hv (Or.inr hdoy)
      | some doy =>
        rw [hmoy] at hmy
        rw [hdoy] at hdy
        exact occ_yearly_some_one hmoy hdoy hmy.1 hmy.2 hdy.1
  · rw [gnpd_default h1 h2 h3]
    exact addMonthsFns_gt hv (by omega)

theorem occ_gt {anchor : Date} {rt : String} {rd : RecurringDetails}
    (hv : ValidDate anchor) (hrd : DetailsValid rd) :
    ∀ count, 1 ≤ count → dateLt anchor (getNextPaymentDate anchor rt count rd) := by
  intro count hc
  induction count with
  | zero => omega
  | succ n ih =>
    by_cases hn : n = 0
    · subst hn
      exact occ_one hv hrd
    · exact dateLt_trans (ih (by omega)) (occ_step hv hrd (by omega))

theorem occ_le_mono {anchor : Date} {rt : String} {rd : RecurringDetails}
    (hv : ValidDate anchor) (hrd : DetailsValid rd) :
    ∀ j k, 1 ≤ j → j ≤ k →
      dateLe (getNextPaymentDate anchor rt j rd) (getNextPaymentDate anchor rt k rd) := by
  intro j k hj hjk
  induction k with
  | zero => exact absurd hjk (by omega)
  | succ k ih =>
    by_cases hend : j = k + 1
    · subst hend
      exact dateLe_refl _
    · exact dateLe_trans (ih (by omega)) (dateLe_of_lt (occ_step hv hrd (by omega)))

end BillManager

namespace BillManager

theorem dateLe_of_not_lt {a b : Date} (h : ¬ dateLt b a) : dateLe a b := by
  unfold dateLt at h
  unfold dateLe
  omega

theorem inWindow_mono {maxD a b : Date} (hab : dateLe a b) (ha : ¬ inWindow maxD a) :
    ¬ inWindow maxD b := by
  unfold inWindow dateLt at *
  unfold dateLe at hab
  omega

theorem genAux_length_le (startDate : Date) (rt : String) (rd : RecurringDetails)
    (endD : Option Date) (maxD : Date) :
    ∀ f i, (genAux startDate rt rd endD maxD i f).length ≤ f := by
  intro f
  induction f with
  | zero => intro i; simp [genAux]
  | succ f ih =>
    intro i
    simp only [genAux]
    split_ifs with h1 h2
    · simp
    · simp only [List.length_cons]
      exact Nat.succ_le_succ (ih (i + 1))
    · simp

theorem genAux_mem_spec (startDate : Date) (rt : String) (rd : RecurringDetails)
    (endD : Option Date) (maxD : Date) :
    ∀ f i d, d ∈ genAux startDate rt rd endD maxD i f →
      ∃ k, i ≤ k ∧ k < i + f ∧ d = getNextPaymentDate startDate rt k rd ∧
        inWindow maxD d ∧ pastEnd endD d = false := by
  intro f
  induction f with
  | zero => intro i d hd; simp [genAux] at hd
  | succ f ih =>
    intro i d hd
    simp only [genAux] at hd
    split_ifs at hd with h1 h2
    · simp at hd
    · rcases List.mem_cons.mp hd with h | h
      · subst h
        exact ⟨i, le_refl i, by omega, rfl, h1, by simpa using h2⟩
      · obtain ⟨k, hk1, hk2, hk3, hk4, hk5⟩ := ih (i + 1) d h
        exact ⟨k, by omega, by omega, hk3, hk4, hk5⟩
    · simp at hd

theorem genAux_mem_of (startDate : Date) (rt : String) (rd : RecurringDetails)
    (endD : Option Date) (maxD : Date) :
    ∀ f i k, i ≤ k → k < i + f →
      (∀ j, i ≤ j → j ≤ k → inWindow maxD (getNextPaymentDate startDate rt j rd) ∧
        pastEnd endD (getNextPaymentDate startDate rt j rd) = false) →
      getNextPaymentDate startDate rt k rd ∈ genAux startDate rt rd endD maxD i f := by
  intro f
  induction f with
  | zero => intro i k h1 h2 _; omega
  | succ f ih =>
    intro i k h1 h2 hall
    have hi := hall i (le_refl i) h1
    simp only [genAux]
    rw [if_pos hi.1, if_neg (by simp [hi.2])]
    by_cases hik : k = i
    · subst hik
      exact List.mem_cons_self _ _
    · exact List.mem_cons_of_mem _
        (ih (i + 1) k (by omega) (by omega) (fun j hj1 hj2 => hall j (by omega) hj2))

end BillManager

namespace BillManager

/-- **C1**: for every valid Weekly, Monthly, or Yearly rule (anchor plus optional
`dayOfWeek`/`dayOfMonth`/`monthOfYear`+`dayOfYear` parameters) and every
iteration ≥ 1, `getNextPaymentDate` is strictly after the anchor, and the
occurrence at `iteration + 1` is strictly after the one at `iteration`: the
sequence is strictly increasing and never re-emits the anchor. -/
theorem C1_occurrences_after_anchor_and_increasing (anchor : Date) (rt : String)
    (rd : RecurringDetails) (count : Nat) (hv : ValidDate anchor) (hrd : DetailsValid rd)
    (hrt : RepeatKindKnown rt) (hc : 1 ≤ count) :
    dateLt anchor (getNextPaymentDate anchor rt count rd) ∧
      dateLt (getNextPaymentDate anchor rt count rd)
        (getNextPaymentDate anchor rt (count + 1) rd) :=
  ⟨occ_gt hv hrd count hc, occ_step hv hrd hc⟩

set_option maxRecDepth 100000 in
/-- Witness for C1 at a concrete weekly rule with a `dayOfWeek` parameter. -/
theorem C1_occurrences_after_anchor_and_increasing_witness :
    ValidDate ⟨2025, 1, 15⟩ ∧ DetailsValid { dayOfWeek := some 5 } ∧
      RepeatKindKnown "weekly" ∧ 1 ≤ 2 ∧
      (dateLt ⟨2025, 1, 15⟩ (getNextPaymentDate ⟨2025, 1, 15⟩ "weekly" 2 { dayOfWeek := some 5 }) ∧
        dateLt (getNextPaymentDate ⟨2025, 1, 15⟩ "weekly" 2 { dayOfWeek := some 5 })
          (getNextPaymentDate ⟨2025, 1, 15⟩ "weekly" 3 { dayOfWeek := some 5 })) :=
  ⟨by decide, by decide, by decide, by decide,
    C1_occurrences_after_anchor_and_increasing ⟨2025, 1, 15⟩ "weekly" { dayOfWeek := some 5 } 2
      (by decide) (by decide) (by decide) (by decide)⟩

set_option maxRecDepth 100000 in
/-- **C2**: evaluation of the code at the failing input.  For a Monthly rule with
`dayOfMonth = 31` anchored 2025-01-15, the occurrence for the February period
(iteration 2) is 2025-03-03, not 2025-02-28: date-fns `setDate` never throws, so
the catch branch meant to clamp (per the code comment, Feb 31 should become
Feb 28/29) is dead and the day rolls over into March.  The March-period
occurrence (iteration 3) is 2025-03-31 as the claim says. -/
theorem C2_february_occurrence_rolls_over_to_march :
    getNextPaymentDate ⟨2025, 1, 15⟩ "monthly" 2 { dayOfMonth := some 31 } = ⟨2025, 3, 3⟩ ∧
      getNextPaymentDate ⟨2025, 1, 15⟩ "monthly" 3 { dayOfMonth := some 31 } = ⟨2025, 3, 31⟩ := by
  exact ⟨by decide, by decide⟩

/-- **C5**: `generatePaymentDates` is a total function (it is defined by
structural recursion on the remaining iteration budget) and the returned
sequence never exceeds the safety ceiling of 1000 dates; when the ceiling is
hit the loop just stops and the prefix collected so far is returned. -/
theorem C5_generator_returns_at_most_1000_dates (startDate : Date) (rt : String)
    (months : Nat) (endD : Option Date) (rd : RecurringDetails) (today : Date) :
    (generatePaymentDates startDate rt months endD rd today).length ≤ 1000 := by
  unfold generatePaymentDates
  exact genAux_length_le startDate rt rd endD (addMonthsFns today months) 1000 1

end BillManager

namespace BillManager

/-- **C3** (amended: provided at most 1000 occurrences fall inside the window,
i.e. occurrence 1001 already lies beyond it).  `generatePaymentDates` with no
end date returns exactly the occurrences strictly after the anchor that lie in
the window reaching through the calendar month of `today + months`: membership
is decided at month granularity, so an occurrence in the same calendar month as
`today + months` is included and the first occurrence in a later month stops
the sequence. -/
theorem C3_window_membership (startDate : Date) (rt : String) (rd : RecurringDetails)
    (months : Nat) (today : Date) (hv : ValidDate startDate) (hrd : DetailsValid rd)
    (hcap : ¬ inWindow (addMonthsFns today months) (getNextPaymentDate startDate rt 1001 rd)) :
    ∀ d, d ∈ generatePaymentDates startDate rt months none rd today ↔
      ((∃ k, 1 ≤ k ∧ d = getNextPaymentDate startDate rt k rd) ∧
        inWindow (addMonthsFns today months) d) := by
  intro d
  constructor
  · intro hmem
    unfold generatePaymentDates at hmem
    obtain ⟨k, hk1, hk2, hk3, hk4, hk5⟩ := genAux_mem_spec _ _ _ _ _ 1000 1 d hmem
    exact ⟨⟨k, hk1, hk3⟩, hk4⟩
  · rintro ⟨⟨k, hk1, hkd⟩, hwin⟩
    subst hkd
    have hk1000 : k ≤ 1000 := by
      by_contra hgt1000
      have hle : dateLe (getNextPaymentDate startDate rt 1001 rd)
          (getNextPaymentDate startDate rt k rd) :=
        occ_le_mono hv hrd 1001 k (by omega) (by omega)
      exact inWindow_mono hle hcap hwin
    unfold generatePaymentDates
    apply genAux_mem_of _ _ _ _ _ 1000 1 k hk1 (by omega)
    intro j hj1 hjk
    refine ⟨?_, rfl⟩
    by_contra hnw
    exact inWindow_mono (occ_le_mono hv hrd j k hj1 hjk) hnw hwin

set_option maxRecDepth 100000 in
/-- Witness for C3 at the spec example: anchor 2025-01-15, plain monthly rule,
horizon 3 months, today 2025-01-20, where the result is exactly
2025-02-15, 2025-03-15, 2025-04-15. -/
theorem C3_window_membership_witness :
    ValidDate ⟨2025, 1, 15⟩ ∧ DetailsValid {} ∧
      ¬ inWindow (addMonthsFns ⟨2025, 1, 20⟩ 3) (getNextPaymentDate ⟨2025, 1, 15⟩ "monthly" 1001 {}) ∧
      (generatePaymentDates ⟨2025, 1, 15⟩ "monthly" 3 none {} ⟨2025, 1, 20⟩
        = [⟨2025, 2, 15⟩, ⟨2025, 3, 15⟩, ⟨2025, 4, 15⟩]) ∧
      ((⟨2025, 2, 15⟩ : Date) ∈ generatePaymentDates ⟨2025, 1, 15⟩ "monthly" 3 none {} ⟨2025, 1, 20⟩ ↔
        ((∃ k, 1 ≤ k ∧ (⟨2025, 2, 15⟩ : Date) = getNextPaymentDate ⟨2025, 1, 15⟩ "monthly" k {}) ∧
          inWindow (addMonthsFns ⟨2025, 1, 20⟩ 3) ⟨2025, 2, 15⟩)) :=
  ⟨by decide, by decide, by decide, by decide,
    C3_window_membership ⟨2025, 1, 15⟩ "monthly" {} 3 ⟨2025, 1, 20⟩
      (by decide) (by decide) (by decide) ⟨2025, 2, 15⟩⟩

set_option maxRecDepth 100000 in
/-- Counterexample to C3 as frozen (no ceiling proviso): for an anchor far in
the past (1900-01-15, monthly) more than 1000 occurrences fall inside the
window ending April 2025, the generator truncates at the 1000-iteration safety
ceiling, and the in-window occurrence number 1200 (2000-01-15) is not returned. -/
theorem C3_window_membership_counterexample :
    (∃ k, 1 ≤ k ∧ getNextPaymentDate ⟨1900, 1, 15⟩ "monthly" 1200 {}
        = getNextPaymentDate ⟨1900, 1, 15⟩ "monthly" k {}) ∧
      inWindow (addMonthsFns ⟨2025, 1, 20⟩ 3) (getNextPaymentDate ⟨1900, 1, 15⟩ "monthly" 1200 {}) ∧
      getNextPaymentDate ⟨1900, 1, 15⟩ "monthly" 1200 {} ∉
        generatePaymentDates ⟨1900, 1, 15⟩ "monthly" 3 none {} ⟨2025, 1, 20⟩ := by
  refine ⟨⟨1200, by omega, rfl⟩, by decide, ?_⟩
  intro hmem
  unfold generatePaymentDates at hmem
  obtain ⟨k, hk1, hk2, hkd, hwin, hpe⟩ := genAux_mem_spec _ _ _ _ _ 1000 1 _ hmem
  have hle : dateLe (getNextPaymentDate ⟨1900, 1, 15⟩ "monthly" k {})
      (getNextPaymentDate ⟨1900, 1, 15⟩ "monthly" 1000 {}) :=
    occ_le_mono (by decide) (by decide) k 1000 hk1 (by omega)
  rw [← hkd] at hle
  exact dateLt_asymm hle (by decide)

/-- **C4**: when an end date is set, `generatePaymentDates` produces no
occurrence strictly after it, regardless of how far the horizon window
extends (an occurrence falling exactly on the end date is still produced,
as the witness shows). -/
theorem C4_no_occurrence_after_end_date (startDate : Date) (rt : String) (months : Nat)
    (rd : RecurringDetails) (today : Date) (e : Date) (d : Date)
    (hmem : d ∈ generatePaymentDates startDate rt months (some e) rd today) :
    dateLe d e := by
  unfold generatePaymentDates at hmem
  obtain ⟨k, hk1, hk2, hk3, hk4, hpe⟩ := genAux_mem_spec _ _ _ _ _ 1000 1 d hmem
  unfold pastEnd at hpe
  simp at hpe
  exact dateLe_of_not_lt hpe

set_option maxRecDepth 100000 in
/-- Witness for C4: with end date 2025-03-15 the occurrence falling exactly on
the end date is still produced, and it is on-or-before the end date. -/
theorem C4_no_occurrence_after_end_date_witness :
    ((⟨2025, 3, 15⟩ : Date) ∈
        generatePaymentDates ⟨2025, 1, 15⟩ "monthly" 3 (some ⟨2025, 3, 15⟩) {} ⟨2025, 1, 20⟩) ∧
      dateLe ⟨2025, 3, 15⟩ ⟨2025, 3, 15⟩ :=
  ⟨by decide,
    C4_no_occurrence_after_end_date ⟨2025, 1, 15⟩ "monthly" 3 {} ⟨2025, 1, 20⟩
      ⟨2025, 3, 15⟩ ⟨2025, 3, 15⟩ (by decide)⟩

end BillManager

namespace BillManager

theorem logAction_rows (db : PaymentDB) (e : LogEntry) :
    (logAction db e).rows = db.rows ∧ (logAction db e).nextId = db.nextId ∧
      (logAction db e).logInsertFails = db.logInsertFails := by
  unfold logAction logInsert
  by_cases h : db.logInsertFails <;> simp [h]

theorem logAction_fail_eq (db : PaymentDB) (e : LogEntry) (h : db.logInsertFails = true) :
    logAction db e = db := by
  unfold logAction logInsert
  simp [h]

theorem createPayment_spec (db : PaymentDB) (p : PaymentData) :
    (createPayment db p).rows = db.rows ++
        [⟨db.nextId, p.account_id, p.due_date, p.amount, p.is_paid, p.paid_date, p.note⟩] ∧
      (createPayment db p).nextId = db.nextId + 1 ∧
      (createPayment db p).logInsertFails = db.logInsertFails := by
  unfold createPayment logAction logInsert
  by_cases h : db.logInsertFails <;> simp [h]

theorem updatePayment_spec (db : PaymentDB) (id : Nat) (p : PaymentData) :
    (updatePayment db id p).rows = db.rows.map (fun r =>
        if r.id = id then ⟨r.id, p.account_id, p.due_date, p.amount, p.is_paid, p.paid_date, p.note⟩
        else r) ∧
      (updatePayment db id p).nextId = db.nextId ∧
      (updatePayment db id p).logInsertFails = db.logInsertFails := by
  unfold updatePayment logAction logInsert
  by_cases h : db.logInsertFails <;> simp [h]

theorem deletePaymentsByAccountId_spec (db : PaymentDB) (accountId : Nat) :
    (deletePaymentsByAccountId db accountId).rows
        = db.rows.filter (fun r => r.account_id != accountId) ∧
      (deletePaymentsByAccountId db accountId).nextId = db.nextId ∧
      (deletePaymentsByAccountId db accountId).logInsertFails = db.logInsertFails := by
  unfold deletePaymentsByAccountId logAction logInsert
  by_cases h : db.logInsertFails <;> simp [h]

theorem paymentExists_append {db db2 : PaymentDB} {t : List PaymentRow}
    (h : db2.rows = db.rows ++ t) {aid : Nat} {d : Date}
    (he : paymentExists db aid d = true) : paymentExists db2 aid d = true := by
  unfold paymentExists at *
  rw [h, List.any_append]
  simp [he]

theorem processDates_rows_append (account : Account) (skip : Bool) :
    ∀ dates (db : PaymentDB), ∃ t,
      (processDates account skip dates db).2.2.rows = db.rows ++ t ∧
      ∀ r ∈ t, r.account_id = account.id ∧ r.amount = account.amount.getD 0 ∧
        r.is_paid = false ∧ r.paid_date = none ∧ r.note = none ∧ r.due_date ∈ dates := by
  intro dates
  induction dates with
  | nil => intro db; exact ⟨[], by simp [processDates], by simp⟩
  | cons d rest ih =>
    intro db
    simp only [processDates]
    split_ifs with h
    · obtain ⟨t, ht1, ht2⟩ := ih db
      exact ⟨t, ht1, fun r hr => by
        obtain ⟨a1, a2, a3, a4, a5, a6⟩ := ht2 r hr
        exact ⟨a1, a2, a3, a4, a5, List.mem_cons_of_mem d a6⟩⟩
    · obtain ⟨t, ht1, ht2⟩ := ih (createPayment db (newPaymentData account d))
      have hc := createPayment_spec db (newPaymentData account d)
      refine ⟨⟨db.nextId, account.id, d, account.amount.getD 0, false, none, none⟩ :: t, ?_, ?_⟩
      · rw [ht1, hc.1]
        simp [newPaymentData]
      · intro r hr
        rcases List.mem_cons.mp hr with h1 | h1
        · subst h1
          exact ⟨rfl, rfl, rfl, rfl, rfl, List.mem_cons_self d rest⟩
        · obtain ⟨a1, a2, a3, a4, a5, a6⟩ := ht2 r h1
          exact ⟨a1, a2, a3, a4, a5, List.mem_cons_of_mem d a6⟩

theorem processDates_exists_after (account : Account) (skip : Bool) :
    ∀ dates (db : PaymentDB) (d : Date), d ∈ dates →
      paymentExists (processDates account skip dates db).2.2 account.id d = true := by
  intro dates
  induction dates with
  | nil => intro db d hd; simp at hd
  | cons d0 rest ih =>
    intro db d hd
    simp only [processDates]
    split_ifs with h
    · rcases List.mem_cons.mp hd with h1 | h1
      · subst h1
        obtain ⟨t, ht1, _⟩ := processDates_rows_append account skip rest db
        have hpe : paymentExists db account.id d = true := by
          simp only [Bool.and_eq_true] at h
          exact h.2
        exact paymentExists_append ht1 hpe
      · exact ih db d h1
    · rcases List.mem_cons.mp hd with h1 | h1
      · subst h1
        obtain ⟨t, ht1, _⟩ := processDates_rows_append account skip rest
          (createPayment db (newPaymentData account d))
        apply paymentExists_append ht1
        have hc := createPayment_spec db (newPaymentData account d)
        unfold paymentExists
        rw [hc.1, List.any_append]
        simp [newPaymentData]
      · exact ih (createPayment db (newPaymentData account d0)) d h1

theorem processDates_skip_all (account : Account) :
    ∀ dates (db : PaymentDB), (∀ d ∈ dates, paymentExists db account.id d = true) →
      processDates account true dates db = (0, dates.length, db) := by
  intro dates
  induction dates with
  | nil => intro db _; rfl
  | cons d rest ih =>
    intro db hall
    simp only [processDates]
    rw [if_pos (by simp [hall d (List.mem_cons_self d rest)])]
    rw [ih db (fun x hx => hall x (List.mem_cons_of_mem d hx))]
    simp

end BillManager

namespace BillManager

/-- **C6**: skip-existing reconciliation is idempotent: a second
`generatePaymentsForAccount(account, skipExisting = true)` run at the same
today with no intervening store mutation creates nothing, reports every
generated date as skipped, and leaves the store untouched; rows added by the
first run carry `amount = account.amount ?? 0`, `isPaid = false`,
`paidDate = null`, and existing rows are never modified. -/
theorem C6_skip_existing_idempotent (account : Account) (today : Date) (db : PaymentDB) :
    (generatePaymentsForAccount account true today
        (generatePaymentsForAccount account true today db).2).1.created = 0 ∧
      (generatePaymentsForAccount account true today
          (generatePaymentsForAccount account true today db).2).1.skipped =
        (generatePaymentsForAccount account true today
            (generatePaymentsForAccount account true today db).2).1.total ∧
      (generatePaymentsForAccount account true today
          (generatePaymentsForAccount account true today db).2).2 =
        (generatePaymentsForAccount account true today db).2 ∧
      (∀ r ∈ (generatePaymentsForAccount account true today db).2.rows,
        r ∈ db.rows ∨ (r.account_id = account.id ∧ r.amount = account.amount.getD 0 ∧
          r.is_paid = false ∧ r.paid_date = none)) := by
  simp only [generatePaymentsForAccount]
  have hall : ∀ d ∈ generatePaymentDates account.start_date account.repeats 3
      (accountEndDate account) {} today,
      paymentExists (processDates account true (generatePaymentDates account.start_date
        account.repeats 3 (accountEndDate account) {} today) db).2.2 account.id d = true :=
    fun d hd => processDates_exists_after account true _ db d hd
  rw [processDates_skip_all account _ _ hall]
  refine ⟨rfl, rfl, rfl, ?_⟩
  obtain ⟨t, ht1, ht2⟩ := processDates_rows_append account true
    (generatePaymentDates account.start_date account.repeats 3 (accountEndDate account) {} today) db
  rw [ht1]
  intro r hr
  rcases List.mem_append.mp hr with h | h
  · exact Or.inl h
  · obtain ⟨a1, a2, a3, a4, a5, a6⟩ := ht2 r h
    exact Or.inr ⟨a1, a2, a3, a4⟩

theorem processDates_false_spec (account : Account) :
    ∀ dates (db : PaymentDB),
      (processDates account false dates db).1 = dates.length ∧
      (processDates account false dates db).2.1 = 0 ∧
      (processDates account false dates db).2.2.rows
        = db.rows ++ freshRows account db.nextId dates ∧
      (processDates account false dates db).2.2.nextId = db.nextId + dates.length := by
  intro dates
  induction dates with
  | nil =>
    intro db
    exact ⟨rfl, rfl, by simp [processDates, freshRows], by simp [processDates]⟩
  | cons d rest ih =>
    intro db
    simp only [processDates]
    rw [if_neg (by simp)]
    have hc := createPayment_spec db (newPaymentData account d)
    obtain ⟨i1, i2, i3, i4⟩ := ih (createPayment db (newPaymentData account d))
    refine ⟨by simp [i1], by simp [i2], ?_, ?_⟩
    · rw [i3, hc.1, hc.2.1]
      simp [freshRows, mkFreshRow, newPaymentData]
    · rw [i4, hc.2.1]
      simp
      omega

theorem freshRows_map_due (account : Account) :
    ∀ dates (n : Nat), (freshRows account n dates).map (fun r => r.due_date) = dates := by
  intro dates
  induction dates with
  | nil => intro n; rfl
  | cons d rest ih => intro n; simp [freshRows, mkFreshRow, ih]

theorem freshRows_fields (account : Account) :
    ∀ dates (n : Nat) (r : PaymentRow), r ∈ freshRows account n dates →
      r.account_id = account.id ∧ r.amount = account.amount.getD 0 ∧ r.is_paid = false ∧
        r.paid_date = none ∧ r.note = none ∧ n ≤ r.id := by
  intro dates
  induction dates with
  | nil => intro n r hr; simp [freshRows] at hr
  | cons d rest ih =>
    intro n r hr
    rcases List.mem_cons.mp hr with h | h
    · subst h
      exact ⟨rfl, rfl, rfl, rfl, rfl, le_refl n⟩
    · obtain ⟨a1, a2, a3, a4, a5, a6⟩ := ih (n + 1) r h
      exact ⟨a1, a2, a3, a4, a5, by omega⟩

theorem filter_deleted_nil (accountId : Nat) :
    ∀ l : List PaymentRow,
      (l.filter (fun r => r.account_id != accountId)).filter
        (fun r => r.account_id == accountId) = [] := by
  intro l
  induction l with
  | nil => rfl
  | cons r t ih =>
    by_cases h : r.account_id = accountId <;> simp [List.filter_cons, h, ih]

theorem filter_fresh_self (account : Account) (accountId : Nat) (haid : account.id = accountId) :
    ∀ dates (n : Nat),
      (freshRows account n dates).filter (fun r => r.account_id == accountId)
        = freshRows account n dates := by
  subst haid
  intro dates
  induction dates with
  | nil => intro n; rfl
  | cons d rest ih => intro n; simp [freshRows, mkFreshRow, List.filter_cons, ih]

end BillManager

namespace BillManager

/-- **C7**: after a successful `regeneratePaymentsForAccount(accountId)`, the
payment rows of that account are exactly the freshly generated due dates (the
count equals the generated sequence length, every row is fresh: unpaid, no
paid date, no note, default amount), and every prior row of the account -
whatever its paid/note/amount state - is gone from the store. -/
theorem C7_regenerate_replaces_all_rows (accounts : List Account) (accountId : Nat)
    (today : Date) (db : PaymentDB) (account : Account)
    (hacc : getAccountById accounts accountId = some account)
    (hid : ∀ r ∈ db.rows, r.id < db.nextId) :
    ∃ res db1, regeneratePaymentsForAccount accounts accountId today db = Except.ok (res, db1) ∧
      res.created = (generatePaymentDates account.start_date account.repeats 3
        (accountEndDate account) {} today).length ∧
      (db1.rows.filter (fun r => r.account_id == accountId)).map (fun r => r.due_date)
        = generatePaymentDates account.start_date account.repeats 3 (accountEndDate account) {} today ∧
      (∀ r ∈ db1.rows.filter (fun r => r.account_id == accountId),
        r.is_paid = false ∧ r.paid_date = none ∧ r.amount = account.amount.getD 0 ∧
          r.note = none) ∧
      (∀ r ∈ db.rows, r.account_id = accountId → r ∉ db1.rows) := by
  have haid : account.id = accountId := by
    have h := List.find?_some hacc
    simpa using h
  unfold regeneratePaymentsForAccount
  rw [hacc]
  simp only [generatePaymentsForAccount]
  refine ⟨_, _, rfl, ?_, ?_, ?_, ?_⟩
  · exact (processDates_false_spec account _ _).1
  · rw [(logAction_rows _ _).1, (processDates_false_spec account _ _).2.2.1,
      (deletePaymentsByAccountId_spec db accountId).1,
      (deletePaymentsByAccountId_spec db accountId).2.1, List.filter_append,
      filter_deleted_nil accountId db.rows, filter_fresh_self account accountId haid]
    simp [freshRows_map_due]
  · intro r hr
    rw [(logAction_rows _ _).1, (processDates_false_spec account _ _).2.2.1,
      (deletePaymentsByAccountId_spec db accountId).1,
      (deletePaymentsByAccountId_spec db accountId).2.1, List.filter_append,
      filter_deleted_nil accountId db.rows, filter_fresh_self account accountId haid] at hr
    simp only [List.nil_append] at hr
    obtain ⟨a1, a2, a3, a4, a5, a6⟩ := freshRows_fields account _ _ r hr
    exact ⟨a3, a4, a2, a5⟩
  · intro r hrdb hraid hrmem
    rw [(logAction_rows _ _).1, (processDates_false_spec account _ _).2.2.1,
      (deletePaymentsByAccountId_spec db accountId).1,
      (deletePaymentsByAccountId_spec db accountId).2.1] at hrmem
    rcases List.mem_append.mp hrmem with h | h
    · have := List.of_mem_filter h
      simp [hraid] at this
    · obtain ⟨a1, a2, a3, a4, a5, a6⟩ := freshRows_fields account _ _ r h
      have := hid r hrdb
      omega

end BillManager

namespace BillManager

set_option maxRecDepth 100000 in
/-- Witness for C7: one account, one pre-existing paid row with a note and a
custom amount; after regeneration the account rows are exactly the three
generated dates. -/
theorem C7_regenerate_replaces_all_rows_witness :
    getAccountById [sampleAccount] 1 = some sampleAccount ∧
      (∀ r ∈ sampleDB.rows, r.id < sampleDB.nextId) ∧
      (∃ res db1, regeneratePaymentsForAccount [sampleAccount] 1 ⟨2025, 1, 20⟩ sampleDB
          = Except.ok (res, db1) ∧
        res.created = (generatePaymentDates sampleAccount.start_date sampleAccount.repeats 3
          (accountEndDate sampleAccount) {} ⟨2025, 1, 20⟩).length ∧
        (db1.rows.filter (fun r => r.account_id == 1)).map (fun r => r.due_date)
          = generatePaymentDates sampleAccount.start_date sampleAccount.repeats 3
            (accountEndDate sampleAccount) {} ⟨2025, 1, 20⟩ ∧
        (∀ r ∈ db1.rows.filter (fun r => r.account_id == 1),
          r.is_paid = false ∧ r.paid_date = none ∧
            r.amount = sampleAccount.amount.getD 0 ∧ r.note = none) ∧
        (∀ r ∈ sampleDB.rows, r.account_id = 1 → r ∉ db1.rows)) :=
  ⟨by decide, by decide,
    C7_regenerate_replaces_all_rows [sampleAccount] 1 ⟨2025, 1, 20⟩ sampleDB sampleAccount
      (by decide) (by decide)⟩

end BillManager

namespace BillManager

theorem updateAmountsLoop_rel {a : Int} {accountId : Nat} (rows0 : List PaymentRow)
    (hnd : (rows0.map (fun r => r.id)).Nodup) :
    ∀ ps (db : PaymentDB),
      (∀ p ∈ ps, p ∈ rows0 ∧ p.account_id = accountId ∧ p.is_paid = false) →
      (ps.map (fun r => r.id)).Nodup →
      List.Forall₂ (rowRel a accountId rows0 ps) rows0 db.rows →
      List.Forall₂ (rowRel a accountId rows0 []) rows0 (updateAmountsLoop a ps db).rows ∧
        (updateAmountsLoop a ps db).nextId = db.nextId ∧
        (updateAmountsLoop a ps db).logInsertFails = db.logInsertFails := by
  intro ps
  induction ps with
  | nil => intro db hps hpnd hrel; exact ⟨hrel, rfl, rfl⟩
  | cons p rest ih =>
    intro db hps hpnd hrel
    simp only [updateAmountsLoop]
    have hp := hps p (List.mem_cons_self p rest)
    have hpid : p.id ∉ rest.map (fun r => r.id) := (List.nodup_cons.mp hpnd).1
    have hrestnd : (rest.map (fun r => r.id)).Nodup := (List.nodup_cons.mp hpnd).2
    have hpr : p ∉ rest := fun hm => hpid (List.mem_map.mpr ⟨p, hm, rfl⟩)
    have hshift : ∀ r0 r1, rowRel a accountId rows0 (p :: rest) r0 r1 → r0 ≠ p →
        rowRel a accountId rows0 rest r0 r1 := by
      intro r0 r1 hr hne
      obtain ⟨m0, e1, e2, e3, e4, e5, e6, e7⟩ := hr
      refine ⟨m0, e1, e2, e3, e4, e5, e6, ?_⟩
      rw [e7]
      by_cases hc : r0.account_id = accountId ∧ r0.is_paid = false ∧ r0 ∉ rest
      · have hc2 : r0 ∉ (p :: rest) := by
          intro hm
          rcases List.mem_cons.mp hm with h | h
          · exact hne h
          · exact hc.2.2 h
        rw [if_pos ⟨hc.1, hc.2.1, hc2⟩, if_pos hc]
      · have hc' : ¬(r0.account_id = accountId ∧ r0.is_paid = false ∧ r0 ∉ (p :: rest)) :=
          fun h => hc ⟨h.1, h.2.1, fun hm => h.2.2 (List.mem_cons_of_mem p hm)⟩
        rw [if_neg hc', if_neg hc]
    by_cases hpa : p.amount ≠ a
    · rw [if_pos hpa]
      have hspec := updatePayment_spec db p.id
        ⟨p.account_id, p.due_date, a, p.is_paid, p.paid_date, p.note⟩
      have hrel2 : List.Forall₂ (rowRel a accountId rows0 rest) rows0
          (updatePayment db p.id ⟨p.account_id, p.due_date, a, p.is_paid, p.paid_date, p.note⟩).rows := by
        rw [hspec.1, List.forall₂_map_right_iff]
        apply List.Forall₂.imp ?_ hrel
        intro r0 r1 hr
        by_cases hid : r1.id = p.id
        · rw [if_pos hid]
          obtain ⟨m0, e1, e2, e3, e4, e5, e6, e7⟩ := hr
          have hpr0 : p = r0 :=
            List.inj_on_of_nodup_map hnd hp.1 m0 (by rw [← hid]; exact e1)
          subst hpr0
          exact ⟨m0, hid, rfl, rfl, rfl, rfl, rfl, by rw [if_pos ⟨hp.2.1, hp.2.2, hpr⟩]⟩
        · rw [if_neg hid]
          refine hshift r0 r1 hr ?_
          intro he
          exact hid (by rw [hr.2.1, he])
      obtain ⟨r1x, r2x, r3x⟩ := ih _ (fun q hq => hps q (List.mem_cons_of_mem p hq)) hrestnd hrel2
      exact ⟨r1x, by rw [r2x, hspec.2.1], by rw [r3x, hspec.2.2]⟩
    · rw [if_neg hpa]
      have hpa2 : p.amount = a := not_not.mp hpa
      have hrel2 : List.Forall₂ (rowRel a accountId rows0 rest) rows0 db.rows := by
        apply List.Forall₂.imp ?_ hrel
        intro r0 r1 hr
        by_cases hr0p : r0 = p
        · obtain ⟨m0, e1, e2, e3, e4, e5, e6, e7⟩ := hr
          subst hr0p
          refine ⟨m0, e1, e2, e3, e4, e5, e6, ?_⟩
          rw [e7, if_neg (fun h => h.2.2 (List.mem_cons_self _ _)),
            if_pos ⟨hp.2.1, hp.2.2, hpr⟩, hpa2]
        · exact hshift r0 r1 hr hr0p
      exact ih db (fun q hq => hps q (List.mem_cons_of_mem p hq)) hrestnd hrel2

end BillManager

namespace BillManager

theorem get_append_of_eq {A B t : List PaymentRow} (ht : A = B ++ t) (i : Nat)
    (h2 : i < A.length) (h1 : i < B.length) : A.get ⟨i, h2⟩ = B.get ⟨i, h1⟩ := by
  subst ht
  exact List.get_append i h1

set_option maxRecDepth 100000 in
/-- Counterexample to C8 as frozen: `updatePaymentsForAccount` (triggered by an
account edit) rewrites the amount of an already-persisted unpaid instance.  The
store holds one unpaid instance with amount 300; after the account amount was
edited to 500, running `updatePaymentsForAccount` leaves that same instance
(id 0) with amount 500. -/
theorem C8_update_rewrites_unpaid_amount_counterexample :
    ((updatePaymentsForAccount [sampleAccount500] 1 ⟨2025, 1, 20⟩ sampleUnpaidDB).toOption.map
        (fun p => (p.2.rows.filter (fun r => r.id == 0)).map (fun r => r.amount)))
      = some [(500 : Int)] ∧
      (sampleUnpaidDB.rows.filter (fun r => r.id == 0)).map (fun r => r.amount) = [(300 : Int)] ∧
      (300 : Int) ≠ 500 := by
  exact ⟨by decide, by decide, by decide⟩

/-- **C8** (amended): an account-edit-triggered `updatePaymentsForAccount` never
removes a persisted payment row (its trailing skip-existing generation pass can
only append rows for missing due dates), keeps the id, account, due date,
paid-state, paid date and note of every pre-existing row, and sets the amount
of every pre-existing row to exactly: the account amount, whenever the account
amount is present and nonzero and the row is an unpaid row of the edited
account; the row's old amount otherwise.  In particular every unpaid row of the
edited account is rewritten to the new amount, while paid rows (even with
custom amounts) and rows of other accounts are untouched, and an absent or zero
account amount rewrites nothing. -/
theorem C8_account_edit_only_syncs_unpaid_amounts (accounts : List Account) (accountId : Nat)
    (today : Date) (db : PaymentDB) (account : Account)
    (hacc : getAccountById accounts accountId = some account)
    (hnd : (db.rows.map (fun r => r.id)).Nodup) :
    ∃ res db1, updatePaymentsForAccount accounts accountId today db = Except.ok (res, db1) ∧
      db.rows.length ≤ db1.rows.length ∧
      ∀ i (h1 : i < db.rows.length) (h2 : i < db1.rows.length),
        (db1.rows.get ⟨i, h2⟩).id = (db.rows.get ⟨i, h1⟩).id ∧
        (db1.rows.get ⟨i, h2⟩).account_id = (db.rows.get ⟨i, h1⟩).account_id ∧
        (db1.rows.get ⟨i, h2⟩).due_date = (db.rows.get ⟨i, h1⟩).due_date ∧
        (db1.rows.get ⟨i, h2⟩).is_paid = (db.rows.get ⟨i, h1⟩).is_paid ∧
        (db1.rows.get ⟨i, h2⟩).paid_date = (db.rows.get ⟨i, h1⟩).paid_date ∧
        (db1.rows.get ⟨i, h2⟩).note = (db.rows.get ⟨i, h1⟩).note ∧
        (db1.rows.get ⟨i, h2⟩).amount =
          (match account.amount with
            | some a =>
              if a ≠ 0 ∧ (db.rows.get ⟨i, h1⟩).account_id = accountId
                  ∧ (db.rows.get ⟨i, h1⟩).is_paid = false
                then a
                else (db.rows.get ⟨i, h1⟩).amount
            | none => (db.rows.get ⟨i, h1⟩).amount) := by
  have main : ∀ (R : PaymentRow → PaymentRow → Prop) (dbU : PaymentDB),
      List.Forall₂ R db.rows dbU.rows →
      db.rows.length ≤ (generatePaymentsForAccount account true today dbU).2.rows.length ∧
        ∀ i (h1 : i < db.rows.length)
          (h2 : i < (generatePaymentsForAccount account true today dbU).2.rows.length),
          R (db.rows.get ⟨i, h1⟩)
            ((generatePaymentsForAccount account true today dbU).2.rows.get ⟨i, h2⟩) := by
    intro R dbU hrel
    simp only [generatePaymentsForAccount]
    obtain ⟨t, ht1, _⟩ := processDates_rows_append account true
      (generatePaymentDates account.start_date account.repeats 3 (accountEndDate account) {} today) dbU
    have hlen := List.Forall₂.length_eq hrel
    constructor
    · rw [ht1]
      simp
      omega
    · intro i h1 h2
      have hget := get_append_of_eq ht1 i h2 (by omega)
      rw [hget]
      exact (List.forall₂_iff_get.mp hrel).2 i h1 (by omega)
  have hfinal : ∀ (R : PaymentRow → PaymentRow → Prop) (dbU : PaymentDB),
      List.Forall₂ R db.rows dbU.rows →
      ∃ res db1, @Except.ok String _ (generatePaymentsForAccount account true today dbU)
          = Except.ok (res, db1) ∧
        db.rows.length ≤ db1.rows.length ∧
        ∀ i (h1 : i < db.rows.length) (h2 : i < db1.rows.length),
          R (db.rows.get ⟨i, h1⟩) (db1.rows.get ⟨i, h2⟩) := by
    intro R dbU hrel
    exact ⟨(generatePaymentsForAccount account true today dbU).1,
      (generatePaymentsForAccount account true today dbU).2, rfl,
      (main R dbU hrel).1, (main R dbU hrel).2⟩
  unfold updatePaymentsForAccount
  rw [hacc]
  simp only []
  cases ham : account.amount with
  | none =>
    exact hfinal (fun r0 r1 => r1.id = r0.id ∧ r1.account_id = r0.account_id ∧
        r1.due_date = r0.due_date ∧ r1.is_paid = r0.is_paid ∧ r1.paid_date = r0.paid_date ∧
        r1.note = r0.note ∧ r1.amount = r0.amount) db
      (List.forall₂_same.mpr (fun r hr => ⟨rfl, rfl, rfl, rfl, rfl, rfl, rfl⟩))
  | some a =>
    have hmr : (match some a with
        | some a => if a ≠ 0 then updateAmountsLoop a
            ((db.rows.filter (fun r => r.account_id == accountId)).filter (fun p => !p.is_paid)) db
          else db
        | none => db) = if a ≠ 0 then updateAmountsLoop a
          ((db.rows.filter (fun r => r.account_id == accountId)).filter (fun p => !p.is_paid)) db
        else db := rfl
    rw [hmr]
    by_cases haz : a ≠ 0
    · rw [if_pos haz]
      have hups : ∀ p ∈ (db.rows.filter (fun r => r.account_id == accountId)).filter
          (fun p => !p.is_paid), p ∈ db.rows ∧ p.account_id = accountId ∧ p.is_paid = false := by
        intro p hp
        have h1 := List.mem_of_mem_filter hp
        have h2 := List.of_mem_filter hp
        have h3 := List.of_mem_filter h1
        exact ⟨List.mem_of_mem_filter h1, by simpa using h3, by simpa using h2⟩
      have hsub : List.Sublist ((db.rows.filter (fun r => r.account_id == accountId)).filter
          (fun p => !p.is_paid)) db.rows :=
        List.Sublist.trans (List.filter_sublist _) (List.filter_sublist _)
      have hpsnd : (((db.rows.filter (fun r => r.account_id == accountId)).filter
          (fun p => !p.is_paid)).map (fun r => r.id)).Nodup :=
        List.Nodup.sublist (List.Sublist.map (fun r => r.id) hsub) hnd
      have hstart : List.Forall₂ (rowRel a accountId db.rows
          ((db.rows.filter (fun r => r.account_id == accountId)).filter (fun p => !p.is_paid)))
          db.rows db.rows := by
        apply List.forall₂_same.mpr
        intro r hr
        refine ⟨hr, rfl, rfl, rfl, rfl, rfl, rfl, ?_⟩
        have hnot : ¬(r.account_id = accountId ∧ r.is_paid = false ∧
            r ∉ (db.rows.filter (fun r => r.account_id == accountId)).filter
              (fun p => !p.is_paid)) := by
          intro h
          exact h.2.2 (List.mem_filter.mpr
            ⟨List.mem_filter.mpr ⟨hr, by simpa using h.1⟩, by simp [h.2.1]⟩)
        rw [if_neg hnot]
      obtain ⟨hrel, h2, h3⟩ := updateAmountsLoop_rel db.rows hnd
        ((db.rows.filter (fun r => r.account_id == accountId)).filter (fun p => !p.is_paid))
        db hups hpsnd hstart
      refine hfinal (fun r0 r1 => r1.id = r0.id ∧ r1.account_id = r0.account_id ∧
          r1.due_date = r0.due_date ∧ r1.is_paid = r0.is_paid ∧ r1.paid_date = r0.paid_date ∧
          r1.note = r0.note ∧ r1.amount =
            (if a ≠ 0 ∧ r0.account_id = accountId ∧ r0.is_paid = false then a
              else r0.amount)) _ ?_
      apply List.Forall₂.imp ?_ hrel
      intro r0 r1 hr
      obtain ⟨m0, e1, e2, e3, e4, e5, e6, e7⟩ := hr
      refine ⟨e1, e2, e3, e4, e5, e6, ?_⟩
      rw [e7]
      by_cases hc : r0.account_id = accountId ∧ r0.is_paid = false
      · rw [if_pos ⟨hc.1, hc.2, List.not_mem_nil r0⟩, if_pos ⟨haz, hc.1, hc.2⟩]
      · have h1n : ¬(r0.account_id = accountId ∧ r0.is_paid = false ∧
            r0 ∉ ([] : List PaymentRow)) := fun h => hc ⟨h.1, h.2.1⟩
        have h2n : ¬(a ≠ 0 ∧ r0.account_id = accountId ∧ r0.is_paid = false) :=
          fun h => hc ⟨h.2.1, h.2.2⟩
        rw [if_neg h1n, if_neg h2n]
    · rw [if_neg haz]
      refine hfinal (fun r0 r1 => r1.id = r0.id ∧ r1.account_id = r0.account_id ∧
          r1.due_date = r0.due_date ∧ r1.is_paid = r0.is_paid ∧ r1.paid_date = r0.paid_date ∧
          r1.note = r0.note ∧ r1.amount =
            (if a ≠ 0 ∧ r0.account_id = accountId ∧ r0.is_paid = false then a
              else r0.amount)) db ?_
      apply List.forall₂_same.mpr
      intro r hr
      refine ⟨rfl, rfl, rfl, rfl, rfl, rfl, ?_⟩
      rw [if_neg (fun h => haz h.1)]

set_option maxRecDepth 100000 in
/-- Witness for the amended C8 on a store holding one paid row with custom
amount and note, after the account amount was edited to 500. -/
theorem C8_account_edit_only_syncs_unpaid_amounts_witness :
    getAccountById [sampleAccount500] 1 = some sampleAccount500 ∧
      (sampleDB.rows.map (fun r => r.id)).Nodup ∧
      (∃ res db1, updatePaymentsForAccount [sampleAccount500] 1 ⟨2025, 1, 20⟩ sampleDB
          = Except.ok (res, db1) ∧
        sampleDB.rows.length ≤ db1.rows.length ∧
        ∀ i (h1 : i < sampleDB.rows.length) (h2 : i < db1.rows.length),
          (db1.rows.get ⟨i, h2⟩).id = (sampleDB.rows.get ⟨i, h1⟩).id ∧
          (db1.rows.get ⟨i, h2⟩).account_id = (sampleDB.rows.get ⟨i, h1⟩).account_id ∧
          (db1.rows.get ⟨i, h2⟩).due_date = (sampleDB.rows.get ⟨i, h1⟩).due_date ∧
          (db1.rows.get ⟨i, h2⟩).is_paid = (sampleDB.rows.get ⟨i, h1⟩).is_paid ∧
          (db1.rows.get ⟨i, h2⟩).paid_date = (sampleDB.rows.get ⟨i, h1⟩).paid_date ∧
          (db1.rows.get ⟨i, h2⟩).note = (sampleDB.rows.get ⟨i, h1⟩).note ∧
          (db1.rows.get ⟨i, h2⟩).amount =
            (match sampleAccount500.amount with
              | some a =>
                if a ≠ 0 ∧ (sampleDB.rows.get ⟨i, h1⟩).account_id = 1
                    ∧ (sampleDB.rows.get ⟨i, h1⟩).is_paid = false
                  then a
                  else (sampleDB.rows.get ⟨i, h1⟩).amount
              | none => (sampleDB.rows.get ⟨i, h1⟩).amount)) :=
  ⟨by decide, by decide,
    C8_account_edit_only_syncs_unpaid_amounts [sampleAccount500] 1 ⟨2025, 1, 20⟩ sampleDB
      sampleAccount500 (by decide) (by decide)⟩

end BillManager

namespace BillManager

theorem paymentExists_congr {db1 db2 : PaymentDB} (h : db1.rows = db2.rows)
    (aid : Nat) (d : Date) : paymentExists db1 aid d = paymentExists db2 aid d := by
  unfold paymentExists
  rw [h]

theorem processDates_congr (account : Account) (skip : Bool) :
    ∀ dates (db1 db2 : PaymentDB), db1.rows = db2.rows → db1.nextId = db2.nextId →
      (processDates account skip dates db1).1 = (processDates account skip dates db2).1 ∧
      (processDates account skip dates db1).2.1 = (processDates account skip dates db2).2.1 ∧
      (processDates account skip dates db1).2.2.rows
        = (processDates account skip dates db2).2.2.rows ∧
      (processDates account skip dates db1).2.2.nextId
        = (processDates account skip dates db2).2.2.nextId := by
  intro dates
  induction dates with
  | nil => intro db1 db2 hr hn; exact ⟨rfl, rfl, hr, hn⟩
  | cons d rest ih =>
    intro db1 db2 hr hn
    simp only [processDates]
    rw [paymentExists_congr hr account.id d]
    by_cases hc : (skip && paymentExists db2 account.id d) = true
    · rw [if_pos hc, if_pos hc]
      obtain ⟨i1, i2, i3, i4⟩ := ih db1 db2 hr hn
      exact ⟨by rw [i1], by rw [i2], i3, i4⟩
    · rw [if_neg hc, if_neg hc]
      have hc1 := createPayment_spec db1 (newPaymentData account d)
      have hc2 := createPayment_spec db2 (newPaymentData account d)
      obtain ⟨i1, i2, i3, i4⟩ := ih (createPayment db1 (newPaymentData account d))
        (createPayment db2 (newPaymentData account d))
        (by rw [hc1.1, hc2.1, hr, hn]) (by rw [hc1.2.1, hc2.2.1, hn])
      exact ⟨by rw [i1], by rw [i2], i3, i4⟩

theorem generatePaymentsForAccount_congr (account : Account) (skip : Bool) (today : Date)
    {db1 db2 : PaymentDB} (hr : db1.rows = db2.rows) (hn : db1.nextId = db2.nextId) :
    (generatePaymentsForAccount account skip today db1).1
        = (generatePaymentsForAccount account skip today db2).1 ∧
      (generatePaymentsForAccount account skip today db1).2.rows
        = (generatePaymentsForAccount account skip today db2).2.rows ∧
      (generatePaymentsForAccount account skip today db1).2.nextId
        = (generatePaymentsForAccount account skip today db2).2.nextId := by
  obtain ⟨i1, i2, i3, i4⟩ := processDates_congr account skip
    (generatePaymentDates account.start_date account.repeats 3 (accountEndDate account) {} today)
    db1 db2 hr hn
  simp only [generatePaymentsForAccount]
  exact ⟨by rw [i1, i2], i3, i4⟩

theorem genAllLoop_congr (skip : Bool) (today : Date) :
    ∀ accounts (db1 db2 : PaymentDB), db1.rows = db2.rows → db1.nextId = db2.nextId →
      (genAllLoop skip today accounts db1).1 = (genAllLoop skip today accounts db2).1 ∧
      (genAllLoop skip today accounts db1).2.1 = (genAllLoop skip today accounts db2).2.1 ∧
      (genAllLoop skip today accounts db1).2.2.1 = (genAllLoop skip today accounts db2).2.2.1 ∧
      (genAllLoop skip today accounts db1).2.2.2.rows
        = (genAllLoop skip today accounts db2).2.2.2.rows ∧
      (genAllLoop skip today accounts db1).2.2.2.nextId
        = (genAllLoop skip today accounts db2).2.2.2.nextId := by
  intro accounts
  induction accounts with
  | nil => intro db1 db2 hr hn; exact ⟨rfl, rfl, rfl, hr, hn⟩
  | cons a rest ih =>
    intro db1 db2 hr hn
    simp only [genAllLoop]
    obtain ⟨g1, g2, g3⟩ := generatePaymentsForAccount_congr a skip today hr hn
    obtain ⟨i1, i2, i3, i4, i5⟩ := ih (generatePaymentsForAccount a skip today db1).2
      (generatePaymentsForAccount a skip today db2).2 g2 g3
    exact ⟨by rw [g1, i1], by rw [g1, i2], by rw [g1, i3], i4, i5⟩

/-- **C9**: a failing audit-sink insert never aborts the triggering operation:
`logAction` catches its own persistence error and returns normally leaving the
store as it was, and both `generatePaymentsForAllAccounts` and
`regeneratePaymentsForAccount` still succeed with exactly the same results and
payment rows as when the log insert works. -/
theorem C9_log_failure_never_aborts (accounts : List Account) (accountId : Nat) (skip : Bool)
    (today : Date) (db : PaymentDB) (account : Account) (hfail : db.logInsertFails = true)
    (hacc : getAccountById accounts accountId = some account) :
    (∀ e, logInsert db e = Except.error "insert failed") ∧
      (∀ e, logAction db e = db) ∧
      (∃ r db1 r0 db0, generatePaymentsForAllAccounts accounts skip today db = Except.ok (r, db1) ∧
        generatePaymentsForAllAccounts accounts skip today { db with logInsertFails := false }
          = Except.ok (r0, db0) ∧ r = r0 ∧ db1.rows = db0.rows) ∧
      (∃ res db1 res0 db0,
        regeneratePaymentsForAccount accounts accountId today db = Except.ok (res, db1) ∧
        regeneratePaymentsForAccount accounts accountId today { db with logInsertFails := false }
          = Except.ok (res0, db0) ∧ res = res0 ∧ db1.rows = db0.rows) := by
  refine ⟨?_, ?_, ?_, ?_⟩
  · intro e
    unfold logInsert
    rw [hfail]
    rfl
  · intro e
    exact logAction_fail_eq db e hfail
  · obtain ⟨c1, c2, c3, c4, c5⟩ := genAllLoop_congr skip today accounts db
      { db with logInsertFails := false } rfl rfl
    unfold generatePaymentsForAllAccounts
    refine ⟨_, _, _, _, rfl, rfl, ?_, ?_⟩
    · rw [c1, c2, c3]
    · rw [(logAction_rows _ _).1, (logAction_rows _ _).1, c4]
  · unfold regeneratePaymentsForAccount
    rw [hacc]
    simp only []
    have hdel1 := deletePaymentsByAccountId_spec db accountId
    have hdel2 := deletePaymentsByAccountId_spec { db with logInsertFails := false } accountId
    obtain ⟨g1, g2, g3⟩ := @generatePaymentsForAccount_congr account false today
      (deletePaymentsByAccountId db accountId)
      (deletePaymentsByAccountId { db with logInsertFails := false } accountId)
      (by rw [hdel1.1, hdel2.1]) (by rw [hdel1.2.1, hdel2.2.1])
    refine ⟨_, _, _, _, rfl, rfl, g1, ?_⟩
    rw [(logAction_rows _ _).1, (logAction_rows _ _).1, g2]

set_option maxRecDepth 100000 in
/-- Witness for C9 on the sample fixtures with a failing log sink. -/
theorem C9_log_failure_never_aborts_witness :
    ({ rows := [samplePaidRow], nextId := 1, logs := [],
        logInsertFails := true } : PaymentDB).logInsertFails = true ∧
      getAccountById [sampleAccount] 1 = some sampleAccount ∧
      ((∀ e, logInsert { rows := [samplePaidRow], nextId := 1, logs := [], logInsertFails := true }
          e = Except.error "insert failed") ∧
        (∀ e, logAction { rows := [samplePaidRow], nextId := 1, logs := [], logInsertFails := true }
          e = { rows := [samplePaidRow], nextId := 1, logs := [], logInsertFails := true }) ∧
        (∃ r db1 r0 db0, generatePaymentsForAllAccounts [sampleAccount] true ⟨2025, 1, 20⟩
            { rows := [samplePaidRow], nextId := 1, logs := [], logInsertFails := true }
            = Except.ok (r, db1) ∧
          generatePaymentsForAllAccounts [sampleAccount] true ⟨2025, 1, 20⟩
            { rows := [samplePaidRow], nextId := 1, logs := [], logInsertFails := false }
            = Except.ok (r0, db0) ∧ r = r0 ∧ db1.rows = db0.rows) ∧
        (∃ res db1 res0 db0, regeneratePaymentsForAccount [sampleAccount] 1 ⟨2025, 1, 20⟩
            { rows := [samplePaidRow], nextId := 1, logs := [], logInsertFails := true }
            = Except.ok (res, db1) ∧
          regeneratePaymentsForAccount [sampleAccount] 1 ⟨2025, 1, 20⟩
            { rows := [samplePaidRow], nextId := 1, logs := [], logInsertFails := false }
            = Except.ok (res0, db0) ∧ res = res0 ∧ db1.rows = db0.rows)) :=
  ⟨rfl, by decide,
    C9_log_failure_never_aborts [sampleAccount] 1 true ⟨2025, 1, 20⟩
      { rows := [samplePaidRow], nextId := 1, logs := [], logInsertFails := true }
      sampleAccount rfl (by decide)⟩

end BillManager

namespace BillManager

theorem gnpd_empty_details (anchor : Date) (rt : String) (k : Nat) :
    getNextPaymentDate anchor rt k {} = plainPeriodAdd anchor rt k := by
  unfold getNextPaymentDate plainPeriodAdd
  by_cases h1 : rt = "weekly"
  · subst h1
    simp
  by_cases h2 : rt = "monthly"
  · subst h2
    simp
  by_cases h3 : rt = "yearly"
  · subst h3
    simp
  · rw [if_neg h1, if_neg h2, if_neg h3]
    rw [if_neg h1]

theorem genAux_congr_occ (startDate : Date) (rt : String) (rd : RecurringDetails)
    (endD : Option Date) (maxD : Date) (f : Nat → Date)
    (hf : ∀ k, getNextPaymentDate startDate rt k rd = f k) :
    ∀ fuel i, genAux startDate rt rd endD maxD i fuel = seqGen f endD maxD i fuel := by
  intro fuel
  induction fuel with
  | zero => intro i; rfl
  | succ fuel ih =>
    intro i
    simp only [genAux, seqGen]
    rw [hf i, ih (i + 1)]

theorem processDates_account_congr (a1 a2 : Account) (hid : a1.id = a2.id)
    (ham : a1.amount = a2.amount) (skip : Bool) :
    ∀ dates (db : PaymentDB), processDates a1 skip dates db = processDates a2 skip dates db := by
  intro dates
  induction dates with
  | nil => intro db; rfl
  | cons d rest ih =>
    intro db
    simp only [processDates, newPaymentData, hid, ham, ih]

/-- **C10**: the production generation path ignores the stored kind-specific
recurrence columns.  `generatePaymentsForAccount` calls `generatePaymentDates`
with a hard-coded 3-month horizon and no `recurringDetails`; with the empty
details record the evaluator is plain period addition (`anchor + k`
weeks/months/years, unknown kinds treated as monthly), the generated sequence
is the plain-addition sequence, and changing an account's stored
`day_of_week` / `day_of_month` / `month_of_year` / `day_of_year` columns never
changes the generation result. -/
theorem C10_production_path_is_plain_period_addition (anchor : Date) (rt : String) (k : Nat)
    (startDate : Date) (months : Nat) (endD : Option Date) (today : Date)
    (account : Account) (skip : Bool) (db : PaymentDB)
    (dw dm my dy : Option Nat) :
    getNextPaymentDate anchor rt k {} = plainPeriodAdd anchor rt k ∧
      generatePaymentDates startDate rt months endD {} today
        = seqGen (plainPeriodAdd startDate rt) endD (addMonthsFns today months) 1 1000 ∧
      generatePaymentsForAccount account skip today db
        = (⟨(processDates account skip (seqGen (plainPeriodAdd account.start_date account.repeats)
              (accountEndDate account) (addMonthsFns today 3) 1 1000) db).1,
            (processDates account skip (seqGen (plainPeriodAdd account.start_date account.repeats)
              (accountEndDate account) (addMonthsFns today 3) 1 1000) db).2.1,
            (seqGen (plainPeriodAdd account.start_date account.repeats)
              (accountEndDate account) (addMonthsFns today 3) 1 1000).length⟩,
          (processDates account skip (seqGen (plainPeriodAdd account.start_date account.repeats)
            (accountEndDate account) (addMonthsFns today 3) 1 1000) db).2.2) ∧
      generatePaymentsForAccount
          { account with day_of_week := dw, day_of_month := dm, month_of_year := my, day_of_year := dy }
          skip today db
        = generatePaymentsForAccount account skip today db := by
  have hgen : ∀ (s : Date) (r : String) (m : Nat) (e : Option Date) (t : Date),
      generatePaymentDates s r m e {} t = seqGen (plainPeriodAdd s r) e (addMonthsFns t m) 1 1000 := by
    intro s r m e t
    unfold generatePaymentDates
    exact genAux_congr_occ s r {} e (addMonthsFns t m) (plainPeriodAdd s r)
      (fun j => gnpd_empty_details s r j) 1000 1
  refine ⟨gnpd_empty_details anchor rt k, hgen startDate rt months endD today, ?_, ?_⟩
  · simp only [generatePaymentsForAccount]
    rw [hgen account.start_date account.repeats 3 (accountEndDate account) today]
  · simp only [generatePaymentsForAccount]
    rw [processDates_account_congr
      { account with day_of_week := dw, day_of_month := dm, month_of_year := my, day_of_year := dy }
      account rfl rfl]
    exact rfl

end BillManager
